import Mathlib

/-!
# Lick sensor for rodents: a verification development

A shallow embedding of the firmware's parameter table (`prototype/app/settings.c`),
of the touch-onset detection of the USB variants (`bottle-x12-usb-out`,
`bottle-x24-usb-out`), of the prototype's button / tick protocol
(`prototype/app/main.c`) and of the six-bottle variant (`bottle-x6-bnc-out`),
followed by the theorems proved about them.

Machine integers are natural numbers or integers; every C conversion that can
change a value (`uint8_t`, `uint16_t`, `int16_t`) is written out as an explicit
reduction modulo a power of two.
-/

namespace LickSensor

/-! ## Machine integers -/

/-- Conversion of a C `int` to `uint8_t`: reduction modulo 256. -/
def to_uint8 (x : Int) : Nat := (x % 256).toNat

/-- Conversion of a C `int` to `int16_t`: two's complement reduction to
`-32768 .. 32767`. -/
def to_int16 (x : Int) : Int := (x + 32768) % 65536 - 32768

/-- Conversion of a natural number to `uint16_t`: reduction modulo 65536. -/
def to_uint16 (x : Nat) : Nat := x % 65536

/-! ## `settings.h` -/

/-- The constant `N_SETTINGS` of `settings.h` (`#define N_SETTINGS 7`). -/
def N_SETTINGS : Nat := 7

/-- The type `enum mpr121_func_key`: the sensor-configuration call a parameter feeds. -/
inductive mpr121_func_key where
  | FUNC_SET_TH
  | FUNC_SET_MHD
  | FUNC_SET_NHD
  | FUNC_SET_NCL
  deriving DecidableEq, Repr

/-- The type `enum mpr121_setting_key`: the identity of a parameter. -/
inductive mpr121_setting_key where
  | SETTING_TTH
  | SETTING_RTH
  | SETTING_MHDR
  | SETTING_MHDF
  | SETTING_NHDR
  | SETTING_NHDF
  | SETTING_NHDT
  deriving DecidableEq, Repr

open mpr121_func_key mpr121_setting_key

/-- The type `struct setting`.  The four numeric fields are `uint8_t` in the source; here
they are naturals, and `setting.is_u8` says that they are in range. -/
structure setting where
  name : String
  value : Nat
  min : Nat
  max : Nat
  step : Nat
  func : mpr121_func_key
  key : mpr121_setting_key
  deriving DecidableEq, Repr

/-- All four numeric fields fit in a `uint8_t`. -/
def setting.is_u8 (s : setting) : Prop :=
  s.value < 256 ∧ s.min < 256 ∧ s.max < 256 ∧ s.step < 256

instance (s : setting) : Decidable s.is_u8 := by
  unfold setting.is_u8; infer_instance

/-- The bounds invariant of a parameter: `min ≤ value ≤ max`. -/
def setting.in_bounds (s : setting) : Prop :=
  s.min ≤ s.value ∧ s.value ≤ s.max

instance (s : setting) : Decidable s.in_bounds := by
  unfold setting.in_bounds; infer_instance

/-! ## `settings.c` -/

/-- The table after `settings_init(settings)`.  The function assigns every field
of each of the entries `0 .. 6`, so the result does not depend on the previous
contents of the array. -/
def settings_init : List setting :=
  [ { name := "Touch thres ", value := 15, min := 0, max := 255, step := 2,
      func := FUNC_SET_TH, key := SETTING_TTH },
    { name := "Release th  ", value := 10, min := 0, max := 255, step := 2,
      func := FUNC_SET_TH, key := SETTING_RTH },
    { name := "NHD rising  ", value := 1, min := 1, max := 63, step := 1,
      func := FUNC_SET_NHD, key := SETTING_NHDR },
    { name := "NHD falling ", value := 1, min := 1, max := 63, step := 1,
      func := FUNC_SET_NHD, key := SETTING_NHDF },
    { name := "NHD touched ", value := 3, min := 1, max := 63, step := 1,
      func := FUNC_SET_NHD, key := SETTING_NHDT },
    { name := "MHD rising  ", value := 1, min := 1, max := 63, step := 1,
      func := FUNC_SET_MHD, key := SETTING_MHDR },
    { name := "MHD falling ", value := 1, min := 1, max := 63, step := 1,
      func := FUNC_SET_MHD, key := SETTING_MHDF } ]

/-- The body of `setting_increase_value` on the entry `settings[*idx]`:
`int16_t val = (int16_t)value + step; if (val > max) value = max; else
value = (uint8_t)val;`. -/
def increase_entry (s : setting) : setting :=
  let val : Int := to_int16 ((s.value : Int) + (s.step : Int))
  if val > (s.max : Int) then { s with value := s.max }
  else { s with value := to_uint8 val }

/-- The body of `setting_decrease_value` on the entry `settings[*idx]`:
`int16_t val = (int16_t)value - step; if (val < min) value = min; else
value = (uint8_t)val;`. -/
def decrease_entry (s : setting) : setting :=
  let val : Int := to_int16 ((s.value : Int) - (s.step : Int))
  if val < (s.min : Int) then { s with value := s.min }
  else { s with value := to_uint8 val }

/-- The call `setting_increase_value(settings, &idx)`.  An index outside the array is
undefined behaviour in C; the model leaves the table as it is there. -/
def setting_increase_value (settings : List setting) (idx : Nat) : List setting :=
  match settings[idx]? with
  | some s => settings.set idx (increase_entry s)
  | none => settings

/-- The call `setting_decrease_value(settings, &idx)`.  An index outside the array is
undefined behaviour in C; the model leaves the table as it is there. -/
def setting_decrease_value (settings : List setting) (idx : Nat) : List setting :=
  match settings[idx]? with
  | some s => settings.set idx (decrease_entry s)
  | none => settings

/-- One call of the table's two mutators, with its index argument. -/
inductive edit where
  | increase (idx : Nat)
  | decrease (idx : Nat)
  deriving DecidableEq, Repr

/-- The index argument of a call. -/
def edit.idx : edit → Nat
  | .increase i => i
  | .decrease i => i

/-- Performs one call on the table. -/
def apply_edit (settings : List setting) : edit → List setting
  | .increase i => setting_increase_value settings i
  | .decrease i => setting_decrease_value settings i

/-- Performs a finite sequence of calls, first call first. -/
def apply_edits (settings : List setting) (ops : List edit) : List setting :=
  ops.foldl apply_edit settings

/-- The loop of `search_setting`: `for (i = 0; i < N_SETTINGS; i++) if
(settings[i].key == key) return i;` and `return -1` after it.  The first argument
counts the iterations that remain, `N_SETTINGS - i`.  The result is `none` when
the loop reads past the end of a table shorter than `N_SETTINGS` (undefined
behaviour in C). -/
def search_setting_loop (key : mpr121_setting_key) (settings : List setting) :
    Nat → Nat → Option Int
  | 0, _ => some (-1)
  | remaining + 1, i =>
    match settings[i]? with
    | some s =>
      if s.key = key then some (i : Int)
      else search_setting_loop key settings remaining (i + 1)
    | none => none

/-- The call `search_setting(key, settings)`, an `int8_t`: an index, or `-1`. -/
def search_setting (key : mpr121_setting_key) (settings : List setting) : Option Int :=
  search_setting_loop key settings N_SETTINGS 0

/-- The array read `settings[ret]` for a signed index: `none` when the index is
outside the table, where the C read is undefined behaviour. -/
def read_entry (settings : List setting) (ret : Int) : Option setting :=
  if 0 ≤ ret then settings[ret.toNat]? else none

/-- The call `get_setting(key, settings)`: `ret = search_setting(key, settings); return
settings[ret];`.  The source does not test `ret`: for an absent key it reads
`settings[-1]`, which the model reports as `none`. -/
def get_setting (key : mpr121_setting_key) (settings : List setting) : Option setting :=
  match search_setting key settings with
  | some ret => read_entry settings ret
  | none => none

/-! ## Touch-onset detection (`lick_events_usb.c`, `lick_two_sensors.c`) -/

/-- The onset mask both USB variants compute in `timer_callback`:
`is_onset = (was_touched ^ is_touched) & is_touched;`, stored in a `uint16_t`. -/
def detect_onset (was_touched is_touched : Nat) : Nat :=
  to_uint16 ((was_touched ^^^ is_touched) &&& is_touched)

/-- Modelled from the spec: the offset mask `(previous XOR current) AND previous`.
No source file computes an offset mask; this definition follows the spec's data
model (`EdgeResult`). -/
def spec_offset (previous current : Nat) : Nat :=
  (previous ^^^ current) &&& previous

/-- The pair of masks the spec calls `EdgeResult`. -/
structure EdgeResult where
  onset : Nat
  offset : Nat
  deriving DecidableEq, Repr

/-- The spec's `detect(previous, current)`: the onset mask as the code computes
it, the offset mask as the spec defines it. -/
def detect (previous current : Nat) : EdgeResult :=
  { onset := detect_onset previous current, offset := spec_offset previous current }

namespace usb12

/-- The globals of `lick_events_usb.c` that `timer_callback` reads or writes, the
level of the on-board LED, and the lines printed so far (oldest first), each line
being `n timestamp is_onset`. -/
structure state where
  is_touched : Nat
  was_touched : Nat
  is_onset : Nat
  n : Nat
  led : Bool
  printed : List (Nat × Nat × Nat)
  deriving DecidableEq, Repr

/-- The globals as initialised: all zero, nothing printed. -/
def init : state :=
  { is_touched := 0, was_touched := 0, is_onset := 0, n := 0, led := false, printed := [] }

/-- The function `timer_callback` of `lick_events_usb.c`.  `sample` is what `mpr121_touched`
reads from the sensor and `timestamp` what the clock returns if it is read. -/
def timer_callback (s : state) (sample timestamp : Nat) : state :=
  let is_touched := to_uint16 sample
  let led := decide (is_touched &&& 1 ≠ 0)
  let is_onset := detect_onset s.was_touched is_touched
  if is_onset ≠ 0 then
    { is_touched := is_touched, was_touched := is_touched, is_onset := is_onset,
      n := to_uint16 (s.n + 1), led := led,
      printed := s.printed ++ [(s.n, timestamp, is_onset)] }
  else
    { is_touched := is_touched, was_touched := is_touched, is_onset := is_onset,
      n := s.n, led := led, printed := s.printed }

/-- Runs `timer_callback` over a sequence of ticks, first tick first; each tick is
the pair of the sample read and the clock value. -/
def run (s : state) : List (Nat × Nat) → state
  | [] => s
  | tick :: rest => run (timer_callback s tick.1 tick.2) rest

end usb12

namespace usb24

/-- The globals of `lick_two_sensors.c` that `timer_callback` reads or writes and
the level of the on-board LED. -/
structure state where
  is_touched_A : Nat
  was_touched_A : Nat
  is_onset_A : Nat
  is_touched_B : Nat
  was_touched_B : Nat
  is_onset_B : Nat
  led : Bool
  deriving DecidableEq, Repr

/-- One printed line, `timestamp is_onset_A is_onset_B`. -/
structure record where
  timestamp : Nat
  onset_A : Nat
  onset_B : Nat
  deriving DecidableEq, Repr

/-- The function `timer_callback` of `lick_two_sensors.c`: the new globals and the line
printed on this tick, if any.  `sample_A` and `sample_B` are what
`mpr121_touched` reads from the two sensors, `timestamp` what the clock returns
if it is read. -/
def timer_callback (s : state) (sample_A sample_B timestamp : Nat) :
    state × Option record :=
  let is_touched_A := to_uint16 sample_A
  let is_touched_B := to_uint16 sample_B
  let led := decide (is_touched_A &&& 1 ≠ 0)
  let is_onset_A := detect_onset s.was_touched_A is_touched_A
  let is_onset_B := detect_onset s.was_touched_B is_touched_B
  let printed :=
    if is_onset_A ≠ 0 ∨ is_onset_B ≠ 0 then
      some { timestamp := timestamp, onset_A := is_onset_A, onset_B := is_onset_B }
    else none
  ({ is_touched_A := is_touched_A, was_touched_A := is_touched_A,
     is_onset_A := is_onset_A,
     is_touched_B := is_touched_B, was_touched_B := is_touched_B,
     is_onset_B := is_onset_B, led := led }, printed)

end usb24

/-! ## The prototype (`prototype/app/main.c`) -/

namespace prototype

/-- A sensor-configuration call of the pico-mpr121 library issued by the
prototype, with its arguments in the order of the call. -/
inductive mpr121_call where
  | set_thresholds (touch release : Nat)
  | set_noise_half_delta (rising falling touched : Nat)
  | set_max_half_delta (rising falling : Nat)
  deriving DecidableEq, Repr

/-- The configuration programmed into the sensor: for each of the three calls the
arguments of its most recent invocation, `none` while the program has not issued
it.  The library that implements the calls is outside the repository; the model
takes each call to store its arguments in the sensor's registers. -/
structure mpr121_config where
  thresholds : Option (Nat × Nat)
  noise_half_delta : Option (Nat × Nat × Nat)
  max_half_delta : Option (Nat × Nat)
  deriving DecidableEq, Repr

/-- The effect of one configuration call on the sensor. -/
def mpr121_config.program (c : mpr121_config) : mpr121_call → mpr121_config
  | .set_thresholds t r => { c with thresholds := some (t, r) }
  | .set_noise_half_delta r f t => { c with noise_half_delta := some (r, f, t) }
  | .set_max_half_delta r f => { c with max_half_delta := some (r, f) }

/-- The value the sensor currently holds for a parameter, if it was programmed. -/
def mpr121_config.value_of (c : mpr121_config) : mpr121_setting_key → Option Nat
  | SETTING_TTH => c.thresholds.map fun p => p.1
  | SETTING_RTH => c.thresholds.map fun p => p.2
  | SETTING_NHDR => c.noise_half_delta.map fun p => p.1
  | SETTING_NHDF => c.noise_half_delta.map fun p => p.2.1
  | SETTING_NHDT => c.noise_half_delta.map fun p => p.2.2
  | SETTING_MHDR => c.max_half_delta.map fun p => p.1
  | SETTING_MHDF => c.max_half_delta.map fun p => p.2

/-- The sensor-configuration calls of `update_mpr121(settings, &idx, lcd, mpr121)`:
the `switch` on `settings[*idx].func`, each case fetching its parameters with
`get_setting`.  There is no case for `FUNC_SET_NCL`.  The result is `none` when a
read falls outside the table.  The two display calls that end the function write
to the LCD only and are not modelled. -/
def update_mpr121 (settings : List setting) (idx : Nat) : Option (List mpr121_call) :=
  match settings[idx]? with
  | none => none
  | some cur =>
    match cur.func with
    | FUNC_SET_TH =>
      match get_setting SETTING_TTH settings, get_setting SETTING_RTH settings with
      | some tth, some rth => some [mpr121_call.set_thresholds tth.value rth.value]
      | _, _ => none
    | FUNC_SET_NHD =>
      match get_setting SETTING_NHDR settings, get_setting SETTING_NHDF settings,
          get_setting SETTING_NHDT settings with
      | some nhdr, some nhdf, some nhdt =>
        some [mpr121_call.set_noise_half_delta nhdr.value nhdf.value nhdt.value]
      | _, _, _ => none
    | FUNC_SET_MHD =>
      match get_setting SETTING_MHDR settings, get_setting SETTING_MHDF settings with
      | some mhdr, some mhdf => some [mpr121_call.set_max_half_delta mhdr.value mhdf.value]
      | _, _ => none
    | FUNC_SET_NCL => some []

/-- The shared variables of `main.c` and the outputs the program drives:
the table, the cursor `curr_setting` (a `uint8_t`), the flag `needs_update`, the
configuration programmed into the sensor, the levels of `TOUCH_OUT_PIN` and of
the LED, and the last code sent to the DAC (`none` before the first tick). -/
structure state where
  settings : List setting
  curr_setting : Nat
  needs_update : Bool
  sensor : mpr121_config
  touch_out : Bool
  led : Bool
  dac : Option Nat
  deriving DecidableEq, Repr

/-- The state `main` leaves when it starts core 1 and the timer: `settings_init`,
then `mpr121_set_thresholds` and `mpr121_set_noise_half_delta` with the values
`get_setting` returns (the call of `mpr121_set_max_half_delta` is commented out
in the source). -/
def main_init : Option state :=
  let settings := settings_init
  match get_setting SETTING_TTH settings, get_setting SETTING_RTH settings,
      get_setting SETTING_NHDR settings, get_setting SETTING_NHDF settings,
      get_setting SETTING_NHDT settings with
  | some tth, some rth, some nhdr, some nhdf, some nhdt =>
    some { settings := settings, curr_setting := 0, needs_update := false,
           sensor := { thresholds := some (tth.value, rth.value),
                       noise_half_delta := some (nhdr.value, nhdf.value, nhdt.value),
                       max_half_delta := none },
           touch_out := false, led := false, dac := none }
  | _, _, _, _, _ => none

/-- The branch of the poll loop taken when `debounce_btn(BTN_DOWN)` reports a
press: `curr_setting++; if (curr_setting == N_SETTINGS) curr_setting =
N_SETTINGS - 1;` (the other branch only redraws the LCD). -/
def button_down (s : state) : state :=
  let c := to_uint8 ((s.curr_setting : Int) + 1)
  if c = N_SETTINGS then { s with curr_setting := N_SETTINGS - 1 }
  else { s with curr_setting := c }

/-- The branch of the poll loop taken when `debounce_btn(BTN_UP)` reports a
press: `curr_setting--; if (curr_setting > N_SETTINGS) curr_setting = 0;` (the
other branch only redraws the LCD).  The decrement wraps in `uint8_t`. -/
def button_up (s : state) : state :=
  let c := to_uint8 ((s.curr_setting : Int) - 1)
  if c > N_SETTINGS then { s with curr_setting := 0 }
  else { s with curr_setting := c }

/-- The branch taken when `debounce_btn(BTN_RIGHT)` reports a press, executed
between `mutex_enter_blocking` and `mutex_exit`. -/
def button_right (s : state) : state :=
  { s with settings := setting_increase_value s.settings s.curr_setting,
           needs_update := true }

/-- The branch taken when `debounce_btn(BTN_LEFT)` reports a press, executed
between `mutex_enter_blocking` and `mutex_exit`. -/
def button_left (s : state) : state :=
  { s with settings := setting_decrease_value s.settings s.curr_setting,
           needs_update := true }

/-- What one tick reads: the touch status and the baseline and filtered values of
electrode 0 (`uint16_t`), and whether the mutex is free, which is the result
`mutex_try_enter` gives if it is called. -/
structure tick_input where
  is_touched : Bool
  baseline : Nat
  filtered : Nat
  lock_free : Bool
  deriving DecidableEq, Repr

/-- The analog code of a tick: `delta = baseline - filtered` stored in an
`int16_t`, then `delta_out = (uint16_t)(1650.0 + (delta * 1.5))`.  The double
`1650 + 1.5 * delta` is the exact rational `(3300 + 3 * delta) / 2`; the
conversion to an integer type truncates toward zero.  Outside `0 .. 65535` the C
conversion is undefined; the model reduces modulo 65536 there. -/
def delta_out (baseline filtered : Nat) : Nat :=
  let delta : Int := to_int16 ((baseline : Int) - (filtered : Int))
  ((Int.tdiv (3300 + 3 * delta) 2) % 65536).toNat

/-- A tick applies the pending edit when `needs_update && mutex_try_enter(&mtx, 0)`
holds. -/
def applies (s : state) (inp : tick_input) : Bool :=
  s.needs_update && inp.lock_free

/-- The function `timer_callback` of `main.c`: the outputs are driven first; then, if
`needs_update` is set and the mutex is obtained, `update_mpr121` runs and
`needs_update` is cleared.  The result is `none` when `update_mpr121` reads
outside the table. -/
def timer_callback (s : state) (inp : tick_input) : Option state :=
  let s1 : state :=
    { s with touch_out := inp.is_touched, led := inp.is_touched,
             dac := some (delta_out inp.baseline inp.filtered) }
  if applies s1 inp then
    match update_mpr121 s1.settings s1.curr_setting with
    | some calls =>
      some { s1 with sensor := calls.foldl mpr121_config.program s1.sensor,
                     needs_update := false }
    | none => none
  else some s1

/-- The steps of the prototype: a debounced press of one of the four buttons,
handled by the poll loop of core 1, or a tick of the sampling timer. -/
inductive step where
  | btn_down
  | btn_up
  | btn_right
  | btn_left
  | tick (inp : tick_input)
  deriving DecidableEq, Repr

/-- Executes one step. -/
def exec (s : state) : step → Option state
  | .btn_down => some (button_down s)
  | .btn_up => some (button_up s)
  | .btn_right => some (button_right s)
  | .btn_left => some (button_left s)
  | .tick inp => timer_callback s inp

/-- Executes a finite sequence of steps, first step first. -/
def run (s : state) : List step → Option state
  | [] => some s
  | st :: rest =>
    match exec s st with
    | some s1 => run s1 rest
    | none => none

/-- A step is a successful apply in a state when it is a tick that runs
`update_mpr121`. -/
def is_apply (s : state) : step → Bool
  | .tick inp => applies s inp
  | _ => false

/-- A step is a committed edit when it is a press of the right or left button. -/
def is_edit : step → Bool
  | .btn_right => true
  | .btn_left => true
  | _ => false

/-- A state of the prototype together with its history since the last successful
apply: `edited` lists the table indices edited since then (most recent first) and
`applied` is the table as it was at that apply, or at start-up when there has
been none. -/
structure history where
  now : state
  edited : List Nat
  applied : List setting
  deriving DecidableEq, Repr

/-- The history at start-up. -/
def history.start (s : state) : history :=
  { now := s, edited := [], applied := s.settings }

/-- Executes one step and records it in the history. -/
def history.record (h : history) (st : step) : Option history :=
  match exec h.now st with
  | none => none
  | some s1 =>
    if is_apply h.now st then some { now := s1, edited := [], applied := s1.settings }
    else if is_edit st then
      some { now := s1, edited := h.now.curr_setting :: h.edited, applied := h.applied }
    else some { now := s1, edited := h.edited, applied := h.applied }

/-- Executes a finite sequence of steps, recording the history. -/
def history.replay (h : history) : List step → Option history
  | [] => some h
  | st :: rest =>
    match h.record st with
    | some h1 => h1.replay rest
    | none => none

/-- The histories reachable from start-up. -/
def boot (steps : List step) : Option history :=
  match main_init with
  | some s0 => (history.start s0).replay steps
  | none => none

/-- One call of `debounce_btn(button)`: `state = (state << 1) | !gpio_get(button) |
0xe000; if (state == 0xf000) return true; return false;`.  The first argument is
the value of the function's `static uint16_t state` before the call and `level`
is what `gpio_get` returns, `true` for a high pin; the buttons pull the pin low
when pressed.  The result is the register after the call and the value
returned. -/
def debounce_btn (state : Nat) (level : Bool) : Nat × Bool :=
  let state1 := to_uint16 ((state <<< 1) ||| (if level then 0 else 1) ||| 0xe000)
  (state1, decide (state1 = 0xf000))

/-- Successive calls of `debounce_btn`, one per level of the list (first call
first): the register after the last call and the values the calls returned. -/
def debounce_feed (state : Nat) : List Bool → Nat × List Bool
  | [] => (state, [])
  | level :: rest =>
    ((debounce_feed (debounce_btn state level).1 rest).1,
     (debounce_btn state level).2 :: (debounce_feed (debounce_btn state level).1 rest).2)

/-- The four buttons of the prototype. -/
inductive button where
  | BTN_DOWN
  | BTN_UP
  | BTN_RIGHT
  | BTN_LEFT
  deriving DecidableEq, Repr

/-- The raw levels of the four button pins during one iteration of the poll loop,
`true` for a high pin (button idle). -/
structure pin_levels where
  btn_down : Bool
  btn_up : Bool
  btn_right : Bool
  btn_left : Bool
  deriving DecidableEq, Repr

/-- The level of one button's pin. -/
def pin_levels.level (p : pin_levels) : button → Bool
  | .BTN_DOWN => p.btn_down
  | .BTN_UP => p.btn_up
  | .BTN_RIGHT => p.btn_right
  | .BTN_LEFT => p.btn_left

/-- The four calls of `debounce_btn` made by one iteration of the poll loop of
`core1_entry`, in the order of the source (`BTN_DOWN`, `BTN_UP`, `BTN_RIGHT`,
`BTN_LEFT`), all on the one static register: the register after the iteration
and the buttons whose call returned `true`, in call order. -/
def poll_buttons (state : Nat) (p : pin_levels) : Nat × List button :=
  let d := debounce_btn state p.btn_down
  let u := debounce_btn d.1 p.btn_up
  let r := debounce_btn u.1 p.btn_right
  let l := debounce_btn r.1 p.btn_left
  (l.1,
   (if d.2 then [button.BTN_DOWN] else []) ++ (if u.2 then [button.BTN_UP] else []) ++
   (if r.2 then [button.BTN_RIGHT] else []) ++ (if l.2 then [button.BTN_LEFT] else []))

/-- Successive iterations of the poll loop: the register after the last one and,
for each iteration, the buttons reported in it. -/
def poll_loop (state : Nat) : List pin_levels → Nat × List (List button)
  | [] => (state, [])
  | p :: rest =>
    ((poll_loop (poll_buttons state p).1 rest).1,
     (poll_buttons state p).2 :: (poll_loop (poll_buttons state p).1 rest).2)

/-- All four buttons idle: every pin high. -/
def all_idle : pin_levels :=
  { btn_down := true, btn_up := true, btn_right := true, btn_left := true }

/-- One button pressed (its pin low), the other three idle. -/
def only_pressed : button → pin_levels
  | .BTN_DOWN => { all_idle with btn_down := false }
  | .BTN_UP => { all_idle with btn_up := false }
  | .BTN_RIGHT => { all_idle with btn_right := false }
  | .BTN_LEFT => { all_idle with btn_left := false }

/-- The step of the model that the poll loop takes when the call of
`debounce_btn` for a button returns `true`. -/
def button.to_step : button → step
  | .BTN_DOWN => step.btn_down
  | .BTN_UP => step.btn_up
  | .BTN_RIGHT => step.btn_right
  | .BTN_LEFT => step.btn_left

/-- An event of the running firmware: one iteration of the poll loop of core 1,
with the pin levels it samples, or one call of `timer_callback` by the repeating
timer. -/
inductive event where
  | poll (p : pin_levels)
  | tick (inp : tick_input)
  deriving DecidableEq, Repr

/-- The timing of the two cores, as far as the protocol needs it: no more than
four poll iterations in a row pass without a tick that finds the mutex free.  The
timer fires every `sampling_interval_ms = 20` ms and every poll iteration ends
with `sleep_ms(20)`, during which core 1 does not hold the mutex (it is held only
inside the two edit branches), so in the firmware such a tick falls between any
two iterations; the condition asks for less.  The first argument counts the poll
iterations since the last such tick. -/
def well_timed_from (since : Nat) : List event → Bool
  | [] => true
  | .poll _ :: rest => decide (since < 4) && well_timed_from (since + 1) rest
  | .tick inp :: rest =>
    if inp.lock_free then well_timed_from 0 rest else well_timed_from since rest

end prototype

/-! ## The six-bottle variant (`bottle-x6-bnc-out/lick_bnc_multiple.c`) -/

namespace bnc6

/-- The constant `OUT_PIN_0`. -/
def OUT_PIN_0 : Nat := 2

/-- The constant `OUT_PIN_1`. -/
def OUT_PIN_1 : Nat := 4

/-- The constant `OUT_PIN_2`. -/
def OUT_PIN_2 : Nat := 6

/-- The constant `OUT_PIN_3`. -/
def OUT_PIN_3 : Nat := 8

/-- The constant `OUT_PIN_4`. -/
def OUT_PIN_4 : Nat := 11

/-- The constant `OUT_PIN_5`. -/
def OUT_PIN_5 : Nat := 13

/-- The output pin `OUT_PIN_k` named after electrode `k`, for `k` in `0 .. 5`. -/
def OUT_PIN : Nat → Nat
  | 0 => OUT_PIN_0
  | 1 => OUT_PIN_1
  | 2 => OUT_PIN_2
  | 3 => OUT_PIN_3
  | 4 => OUT_PIN_4
  | _ => OUT_PIN_5

/-- The global `gpio_mask`, a `uint32_t`: `(1 << OUT_PIN_0) | ... | (1 << OUT_PIN_5)`. -/
def gpio_mask : Nat :=
  ((1 <<< OUT_PIN_0) ||| (1 <<< OUT_PIN_1) ||| (1 <<< OUT_PIN_2) ||| (1 <<< OUT_PIN_3) |||
    (1 <<< OUT_PIN_4) ||| (1 <<< OUT_PIN_5)) % 4294967296

/-- The call `gpio_put_masked(mask, value)` of the Pico SDK, which is outside the
repository: it toggles the output bits `(gpio_out ^ value) & mask`, so that every
pin set in `mask` takes the corresponding bit of `value` and the other pins keep
their level.  `pins` is the word of output levels, bit `p` for pin `p`. -/
def gpio_put_masked (pins mask value : Nat) : Nat :=
  pins ^^^ ((pins ^^^ value) &&& mask)

/-- The global `is_touched` and the word of output levels of the GPIO pins. -/
structure state where
  is_touched : Nat
  pins : Nat
  deriving DecidableEq, Repr

/-- The state when the timer starts: `is_touched` is zero-initialised and
`gpio_init_mask` has cleared the output pins. -/
def init : state :=
  { is_touched := 0, pins := 0 }

/-- The function `timer_callback` of `lick_bnc_multiple.c`: `mpr121_touched(&is_touched,
&mpr121); gpio_put_masked(gpio_mask, (uint32_t)is_touched);`.  `sample` is what
`mpr121_touched` reads, bit `k` for electrode `k`. -/
def timer_callback (s : state) (sample : Nat) : state :=
  { is_touched := to_uint16 sample,
    pins := gpio_put_masked s.pins gpio_mask (to_uint16 sample) }

end bnc6

/-! ## Invariants used by the proofs -/

/-- Every entry has 8-bit fields and satisfies `min ≤ value ≤ max`. -/
def table_ok (settings : List setting) : Prop :=
  ∀ s ∈ settings, s.is_u8 ∧ s.in_bounds

/-- The keys and funcs of a table are those of `settings_init`, in order. -/
def table_shape (settings : List setting) : Prop :=
  settings.map (fun s => (s.key, s.func)) = settings_init.map (fun s => (s.key, s.func))

/-- The invariant of the prototype's reachable histories: the cursor is inside
the table, the table has the keys and funcs of `settings_init`, `needs_update`
is set exactly when an edit was committed since the last successful apply, and
the table is the one of the last successful apply while `needs_update` is clear. -/
def history_inv (h : prototype.history) : Prop :=
  h.now.curr_setting ≤ 6 ∧ table_shape h.now.settings ∧
  (h.now.needs_update = true ↔ h.edited ≠ []) ∧
  (h.now.needs_update = false → h.now.settings = h.applied)

/-- None of the next `q` calls of `debounce_btn` can return `true`: bits
`12 - q` to 11 of the register are clear. -/
def quiet (q state : Nat) : Prop :=
  ∀ j, 12 ≤ j + q → j < 12 → state.testBit j = false

open prototype

/-! ## Machine-integer conversions on values in range -/

theorem to_int16_of_small (x : Int) (hlo : -32768 ≤ x) (hhi : x < 32768) :
    to_int16 x = x := by
  unfold to_int16; omega

theorem to_uint8_of_small (x : Int) (hlo : 0 ≤ x) (hhi : x < 256) :
    ((to_uint8 x : Nat) : Int) = x := by
  unfold to_uint8; omega

/-! ## The two mutators on one entry -/

theorem increase_entry_eq (s : setting) (hv : s.value < 256) (hm : s.max < 256)
    (hs : s.step < 256) :
    increase_entry s = { s with value := Nat.min (s.value + s.step) s.max } := by
  have h16 : to_int16 ((s.value : Int) + (s.step : Int)) = (s.value : Int) + (s.step : Int) :=
    to_int16_of_small _ (by omega) (by omega)
  unfold increase_entry
  simp only [h16]
  split
  · next h =>
    have : Nat.min (s.value + s.step) s.max = s.max := by
      simp only [Nat.min_def]; split <;> omega
    rw [this]
  · next h =>
    have h8 := to_uint8_of_small ((s.value : Int) + (s.step : Int)) (by omega) (by omega)
    have : to_uint8 ((s.value : Int) + (s.step : Int)) = Nat.min (s.value + s.step) s.max := by
      simp only [Nat.min_def]; split <;> omega
    rw [this]

theorem decrease_entry_eq (s : setting) (hv : s.value < 256) (hm : s.min < 256)
    (hs : s.step < 256) :
    decrease_entry s = { s with value := Nat.max (s.value - s.step) s.min } := by
  have h16 : to_int16 ((s.value : Int) - (s.step : Int)) = (s.value : Int) - (s.step : Int) :=
    to_int16_of_small _ (by omega) (by omega)
  unfold decrease_entry
  simp only [h16]
  split
  · next h =>
    have : Nat.max (s.value - s.step) s.min = s.min := by
      simp only [Nat.max_def]; split <;> omega
    rw [this]
  · next h =>
    have h8 := to_uint8_of_small ((s.value : Int) - (s.step : Int)) (by omega) (by omega)
    have : to_uint8 ((s.value : Int) - (s.step : Int)) = Nat.max (s.value - s.step) s.min := by
      simp only [Nat.max_def]; split <;> omega
    rw [this]

theorem increase_entry_bounds (s : setting) (hu : s.is_u8) (hb : s.in_bounds) :
    (increase_entry s).is_u8 ∧ (increase_entry s).in_bounds := by
  obtain ⟨hv, hmin, hmax, hstep⟩ := hu
  obtain ⟨h1, h2⟩ := hb
  rw [increase_entry_eq s hv hmax hstep]
  simp only [setting.is_u8, setting.in_bounds, Nat.min_def]
  split <;> omega

theorem decrease_entry_bounds (s : setting) (hu : s.is_u8) (hb : s.in_bounds) :
    (decrease_entry s).is_u8 ∧ (decrease_entry s).in_bounds := by
  obtain ⟨hv, hmin, hmax, hstep⟩ := hu
  obtain ⟨h1, h2⟩ := hb
  rw [decrease_entry_eq s hv hmin hstep]
  simp only [setting.is_u8, setting.in_bounds, Nat.max_def]
  split <;> omega

theorem table_ok_set (settings : List setting) (idx : Nat) (x : setting)
    (h : table_ok settings) (hx : x.is_u8 ∧ x.in_bounds) :
    table_ok (settings.set idx x) := by
  intro s hs
  rcases List.mem_or_eq_of_mem_set hs with h1 | h1
  · exact h s h1
  · exact h1 ▸ hx

theorem table_ok_increase (settings : List setting) (idx : Nat) (h : table_ok settings) :
    table_ok (setting_increase_value settings idx) := by
  unfold setting_increase_value
  split
  · next s hs =>
    have hmem : s ∈ settings := List.getElem?_mem hs
    exact table_ok_set _ _ _ h (increase_entry_bounds s (h s hmem).1 (h s hmem).2)
  · exact h

theorem table_ok_decrease (settings : List setting) (idx : Nat) (h : table_ok settings) :
    table_ok (setting_decrease_value settings idx) := by
  unfold setting_decrease_value
  split
  · next s hs =>
    have hmem : s ∈ settings := List.getElem?_mem hs
    exact table_ok_set _ _ _ h (decrease_entry_bounds s (h s hmem).1 (h s hmem).2)
  · exact h

theorem table_ok_apply_edits (ops : List edit) (settings : List setting)
    (h : table_ok settings) : table_ok (apply_edits settings ops) := by
  induction ops generalizing settings with
  | nil => exact h
  | cons e rest ih =>
    simp only [apply_edits, List.foldl_cons]
    apply ih
    cases e with
    | increase i => exact table_ok_increase _ _ h
    | decrease i => exact table_ok_decrease _ _ h

theorem table_ok_settings_init : table_ok settings_init := by
  unfold table_ok; decide

/-- The entry at position `i` after a write at position `idx`. -/
theorem entry_after_set (settings : List setting) (idx i : Nat) (s x : setting)
    (hi : settings[i]? = some s) :
    (settings.set idx x)[i]? = some (if idx = i then x else s) := by
  have hlt : i < settings.length := by
    rcases List.getElem?_eq_some_iff.mp hi with ⟨h, _⟩
    exact h
  by_cases h : idx = i
  · subst h
    simp [hlt]
  · simp [h, hi, List.getElem?_set_ne h]

/-- C1. Bounds invariant of the parameter table: starting from the table built
by `settings_init`, after any finite sequence of `setting_increase_value` /
`setting_decrease_value` calls with an index in `0 .. 6` every entry satisfies
`min ≤ value ≤ max`; and each of the two operations, called with any index inside
the table, leaves every entry with 8-bit fields that satisfied
`min ≤ value ≤ max` before the call satisfying it after the call. -/
theorem C1_bounds_invariant :
    (∀ ops : List edit, (∀ e ∈ ops, e.idx < N_SETTINGS) →
      ∀ s ∈ apply_edits settings_init ops, s.min ≤ s.value ∧ s.value ≤ s.max) ∧
    (∀ (settings : List setting) (idx i : Nat) (s : setting),
      idx < settings.length → settings[i]? = some s → s.is_u8 →
      s.min ≤ s.value ∧ s.value ≤ s.max →
      (∃ s1, (setting_increase_value settings idx)[i]? = some s1 ∧
        s1.min ≤ s1.value ∧ s1.value ≤ s1.max) ∧
      (∃ s1, (setting_decrease_value settings idx)[i]? = some s1 ∧
        s1.min ≤ s1.value ∧ s1.value ≤ s1.max)) := by
  refine ⟨?_, ?_⟩
  · intro ops _ s hs
    exact (table_ok_apply_edits ops settings_init table_ok_settings_init s hs).2
  · intro settings idx i s hidx hi hu hb
    obtain ⟨x, hx⟩ : ∃ x, settings[idx]? = some x :=
      ⟨settings[idx], List.getElem?_eq_getElem hidx⟩
    constructor
    · refine ⟨if idx = i then increase_entry x else s, ?_, ?_⟩
      · simp only [setting_increase_value, hx]
        exact entry_after_set settings idx i s _ hi
      · split
        · next h =>
          subst h
          have : x = s := by rw [hx] at hi; exact Option.some.inj hi
          subst this
          exact (increase_entry_bounds x hu hb).2
        · exact hb
    · refine ⟨if idx = i then decrease_entry x else s, ?_, ?_⟩
      · simp only [setting_decrease_value, hx]
        exact entry_after_set settings idx i s _ hi
      · split
        · next h =>
          subst h
          have : x = s := by rw [hx] at hi; exact Option.some.inj hi
          subst this
          exact (decrease_entry_bounds x hu hb).2
        · exact hb

/-- Writing back the entry that is already there changes nothing. -/
theorem set_same (settings : List setting) (idx : Nat) (s : setting)
    (hs : settings[idx]? = some s) : settings.set idx s = settings := by
  apply List.ext_getElem?
  intro n
  rw [List.getElem?_set]
  split
  · next h =>
    subst h
    have hlt := (List.getElem?_eq_some_iff.mp hs).1
    simp [hlt, hs]
  · rfl

/-- Witness for C1: the initial table after three calls, and both operations on
an entry sitting at its upper bound. -/
theorem C1_bounds_invariant_witness :
    (∀ s ∈ apply_edits settings_init [edit.decrease 2, edit.increase 0, edit.increase 6],
      s.min ≤ s.value ∧ s.value ≤ s.max) ∧
    ((∃ s1, (setting_increase_value
        [{ name := "p", value := 255, min := 250, max := 255, step := 7,
           func := mpr121_func_key.FUNC_SET_TH, key := mpr121_setting_key.SETTING_TTH }] 0)[0]?
          = some s1 ∧ s1.min ≤ s1.value ∧ s1.value ≤ s1.max) ∧
     (∃ s1, (setting_decrease_value
        [{ name := "p", value := 255, min := 250, max := 255, step := 7,
           func := mpr121_func_key.FUNC_SET_TH, key := mpr121_setting_key.SETTING_TTH }] 0)[0]?
          = some s1 ∧ s1.min ≤ s1.value ∧ s1.value ≤ s1.max)) :=
  ⟨C1_bounds_invariant.1 _ (by decide),
   C1_bounds_invariant.2 _ 0 0 _ (by decide) rfl (by decide) (by decide)⟩

/-- C2. For every entry whose `value`, `min` and `step` are 8-bit unsigned,
`setting_decrease_value` replaces `value` by `max(value - step, min)` taken in
the integers and leaves the other fields and entries alone, so the result never
wraps; in particular a call on an entry with `value = min` leaves the table
unchanged. -/
theorem C2_decrease_saturates (settings : List setting) (idx : Nat) (s : setting)
    (hs : settings[idx]? = some s)
    (hv : s.value < 256) (hmin : s.min < 256) (hstep : s.step < 256) :
    ∃ v : Nat, (v : Int) = max ((s.value : Int) - (s.step : Int)) (s.min : Int) ∧
      setting_decrease_value settings idx = settings.set idx { s with value := v } ∧
      (s.value = s.min → v = s.min ∧ setting_decrease_value settings idx = settings) := by
  refine ⟨Nat.max (s.value - s.step) s.min, ?_, ?_, ?_⟩
  · simp only [Nat.max_def]
    split <;> omega
  · simp only [setting_decrease_value, hs]
    rw [decrease_entry_eq s hv hmin hstep]
  · intro heq
    have hval : Nat.max (s.value - s.step) s.min = s.min := by
      simp only [Nat.max_def]; split <;> omega
    refine ⟨hval, ?_⟩
    simp only [setting_decrease_value, hs]
    rw [decrease_entry_eq s hv hmin hstep, hval]
    have : ({ s with value := s.min } : setting) = s := by
      cases s; simp_all
    rw [this]
    exact set_same settings idx s hs

/-- Witness for C2: the release threshold at zero is decreased by a step of two. -/
theorem C2_decrease_saturates_witness :
    ∃ v : Nat, (v : Int) = max ((0 : Int) - 2) 0 ∧
      setting_decrease_value
        [{ name := "Release th  ", value := 0, min := 0, max := 255, step := 2,
           func := mpr121_func_key.FUNC_SET_TH, key := mpr121_setting_key.SETTING_RTH }] 0 =
        [{ name := "Release th  ", value := v, min := 0, max := 255, step := 2,
           func := mpr121_func_key.FUNC_SET_TH, key := mpr121_setting_key.SETTING_RTH }] := by
  obtain ⟨v, h1, h2, _⟩ := C2_decrease_saturates
    [{ name := "Release th  ", value := 0, min := 0, max := 255, step := 2,
       func := mpr121_func_key.FUNC_SET_TH, key := mpr121_setting_key.SETTING_RTH }] 0 _ rfl
    (by decide) (by decide) (by decide)
  exact ⟨v, h1, h2⟩

/-- C3. For every entry whose `value`, `max` and `step` are 8-bit unsigned,
`setting_increase_value` replaces `value` by `min(value + step, max)` taken in
the integers and leaves the other fields and entries alone, so no 8-bit overflow
occurs; in particular a call on an entry with `value = max` leaves the table
unchanged. -/
theorem C3_increase_saturates (settings : List setting) (idx : Nat) (s : setting)
    (hs : settings[idx]? = some s)
    (hv : s.value < 256) (hmax : s.max < 256) (hstep : s.step < 256) :
    ∃ v : Nat, (v : Int) = min ((s.value : Int) + (s.step : Int)) (s.max : Int) ∧
      setting_increase_value settings idx = settings.set idx { s with value := v } ∧
      (s.value = s.max → v = s.max ∧ setting_increase_value settings idx = settings) := by
  refine ⟨Nat.min (s.value + s.step) s.max, ?_, ?_, ?_⟩
  · simp only [Nat.min_def]
    split <;> omega
  · simp only [setting_increase_value, hs]
    rw [increase_entry_eq s hv hmax hstep]
  · intro heq
    have hval : Nat.min (s.value + s.step) s.max = s.max := by
      simp only [Nat.min_def]; split <;> omega
    refine ⟨hval, ?_⟩
    simp only [setting_increase_value, hs]
    rw [increase_entry_eq s hv hmax hstep, hval]
    have : ({ s with value := s.max } : setting) = s := by
      cases s; simp_all
    rw [this]
    exact set_same settings idx s hs

/-- Witness for C3: the touch threshold at 255 is increased by a step of 255. -/
theorem C3_increase_saturates_witness :
    ∃ v : Nat, (v : Int) = min ((255 : Int) + 255) 255 ∧
      setting_increase_value
        [{ name := "Touch thres ", value := 255, min := 0, max := 255, step := 255,
           func := mpr121_func_key.FUNC_SET_TH, key := mpr121_setting_key.SETTING_TTH }] 0 =
        [{ name := "Touch thres ", value := v, min := 0, max := 255, step := 255,
           func := mpr121_func_key.FUNC_SET_TH, key := mpr121_setting_key.SETTING_TTH }] := by
  obtain ⟨v, h1, h2, _⟩ := C3_increase_saturates
    [{ name := "Touch thres ", value := 255, min := 0, max := 255, step := 255,
       func := mpr121_func_key.FUNC_SET_TH, key := mpr121_setting_key.SETTING_TTH }] 0 _ rfl
    (by decide) (by decide) (by decide)
  exact ⟨v, h1, h2⟩

/-! ## Edge detection -/

theorem to_uint16_of_small (x : Nat) (h : x < 65536) : to_uint16 x = x := by
  unfold to_uint16; omega

theorem detect_onset_eq (previous current : Nat) (hc : current < 65536) :
    detect_onset previous current = (previous ^^^ current) &&& current := by
  unfold detect_onset
  apply to_uint16_of_small
  exact Nat.lt_of_le_of_lt Nat.and_le_right hc

theorem xor_and_disjoint (p c : Nat) :
    ((p ^^^ c) &&& c) &&& ((p ^^^ c) &&& p) = 0 := by
  apply Nat.eq_of_testBit_eq
  intro i
  simp only [Nat.testBit_and, Nat.testBit_xor, Nat.zero_testBit]
  cases p.testBit i <;> cases c.testBit i <;> rfl

/-- C4. For all 16-bit masks `previous` and `current`, the onset mask the code
computes is `(previous XOR current) AND current`, and it has no bit in common
with the offset mask of the spec, `(previous XOR current) AND previous`. -/
theorem C4_onset_offset_disjoint (previous current : Nat)
    (hp : previous < 65536) (hc : current < 65536) :
    (detect previous current).onset = (previous ^^^ current) &&& current ∧
    (detect previous current).offset = (previous ^^^ current) &&& previous ∧
    (detect previous current).onset &&& (detect previous current).offset = 0 := by
  have _ := hp
  refine ⟨?_, ?_, ?_⟩
  · exact detect_onset_eq previous current hc
  · rfl
  · show detect_onset previous current &&& spec_offset previous current = 0
    rw [detect_onset_eq previous current hc]
    exact xor_and_disjoint previous current

/-- Witness for C4: electrodes 0 and 2 touched before, electrodes 0 and 1 now. -/
theorem C4_onset_offset_disjoint_witness :
    (detect 5 3).onset = (5 ^^^ 3) &&& 3 ∧
    (detect 5 3).offset = (5 ^^^ 3) &&& 5 ∧
    (detect 5 3).onset &&& (detect 5 3).offset = 0 :=
  C4_onset_offset_disjoint 5 3 (by decide) (by decide)

/-- C5. For every mask `previous`, detecting edges against `current = 0` gives
the offset mask `previous` and the onset mask `0`. -/
theorem C5_full_release (previous : Nat) :
    (detect previous 0).offset = previous ∧ (detect previous 0).onset = 0 := by
  simp [detect, spec_offset, detect_onset, to_uint16]

/-- C6. In the two-sensor tick handler, for all 16-bit previous and current
samples of sensors A and B, a line is printed iff at least one of the two onset
masks `(previous XOR current) AND current` is nonzero, and the printed line
carries the timestamp and the two masks as separate fields, each computed from
its own sensor alone. -/
theorem C6_two_sensor_record (s : usb24.state) (sample_A sample_B timestamp : Nat)
    (hA : sample_A < 65536) (hB : sample_B < 65536) :
    (usb24.timer_callback s sample_A sample_B timestamp).2 =
      (if (s.was_touched_A ^^^ sample_A) &&& sample_A ≠ 0 ∨
          (s.was_touched_B ^^^ sample_B) &&& sample_B ≠ 0 then
        some { timestamp := timestamp,
               onset_A := (s.was_touched_A ^^^ sample_A) &&& sample_A,
               onset_B := (s.was_touched_B ^^^ sample_B) &&& sample_B }
      else none) ∧
    (usb24.timer_callback s sample_A sample_B timestamp).1.was_touched_A = sample_A ∧
    (usb24.timer_callback s sample_A sample_B timestamp).1.was_touched_B = sample_B := by
  refine ⟨?_, ?_, ?_⟩
  · simp only [usb24.timer_callback, to_uint16_of_small sample_A hA,
      to_uint16_of_small sample_B hB, detect_onset_eq _ sample_A hA,
      detect_onset_eq _ sample_B hB]
  · exact to_uint16_of_small sample_A hA
  · exact to_uint16_of_small sample_B hB

/-- Witness for C6: the scenario of the spec, sensor A going from `0b0` to `0b1`
while sensor B stays at `0b0`, prints `onset_A = 1` and `onset_B = 0`. -/
theorem C6_two_sensor_record_witness :
    (usb24.timer_callback
        { is_touched_A := 0, was_touched_A := 0, is_onset_A := 0,
          is_touched_B := 0, was_touched_B := 0, is_onset_B := 0, led := false }
        1 0 1234).2 = some { timestamp := 1234, onset_A := 1, onset_B := 0 } :=
  (C6_two_sensor_record _ 1 0 1234 (by decide) (by decide)).1

/-! ## The cursor -/

theorem button_down_cursor (s : state) (hc : s.curr_setting ≤ 6) :
    (button_down s).curr_setting = Nat.min (s.curr_setting + 1) 6 := by
  have h8 := to_uint8_of_small ((s.curr_setting : Int) + 1) (by omega) (by omega)
  unfold button_down
  simp only [N_SETTINGS, Nat.min_def]
  split <;> split <;> simp only [] <;> omega

theorem button_up_cursor (s : state) (hc : s.curr_setting ≤ 6) :
    (button_up s).curr_setting = s.curr_setting - 1 := by
  unfold button_up
  simp only [N_SETTINGS]
  by_cases h0 : s.curr_setting = 0
  · have : to_uint8 ((s.curr_setting : Int) - 1) = 255 := by
      rw [h0]; decide
    rw [this]
    simp [h0]
  · have h8 := to_uint8_of_small ((s.curr_setting : Int) - 1) (by omega) (by omega)
    split <;> simp only [] <;> omega

/-- A sequence of cursor moves keeps the cursor inside the table. -/
theorem moves_keep_cursor (moves : List step)
    (hm : ∀ m ∈ moves, m = step.btn_down ∨ m = step.btn_up) (s : state)
    (hc : s.curr_setting ≤ 6) :
    ∃ s1, run s moves = some s1 ∧ s1.curr_setting ≤ 6 := by
  induction moves generalizing s with
  | nil => exact ⟨s, rfl, hc⟩
  | cons m rest ih =>
    have hrest : ∀ x ∈ rest, x = step.btn_down ∨ x = step.btn_up :=
      fun x hx => hm x (List.mem_cons_of_mem _ hx)
    rcases hm m (List.mem_cons_self _ _) with h | h
    · subst h
      have hd := button_down_cursor s hc
      have : (button_down s).curr_setting ≤ 6 := by
        rw [hd]; simp only [Nat.min_def]; split <;> omega
      simpa [run, exec] using ih hrest (button_down s) this
    · subst h
      have hu := button_up_cursor s hc
      have : (button_up s).curr_setting ≤ 6 := by omega
      simpa [run, exec] using ih hrest (button_up s) this

/-- C9. For every cursor value `c` in `0 .. 6`, the button-down step sets the
cursor to `min(c + 1, 6)` and the button-up step sets it to `max(c - 1, 0)`
(taken in the integers), with no wraparound at either end; hence the cursor
stays in `0 .. 6` after any sequence of moves. -/
theorem C9_cursor_clamped (s : state) (hc : s.curr_setting ≤ 6) :
    ((button_down s).curr_setting : Int) = min ((s.curr_setting : Int) + 1) 6 ∧
    ((button_up s).curr_setting : Int) = max ((s.curr_setting : Int) - 1) 0 ∧
    (∀ moves : List step, (∀ m ∈ moves, m = step.btn_down ∨ m = step.btn_up) →
      ∃ s1, run s moves = some s1 ∧ s1.curr_setting ≤ 6) := by
  refine ⟨?_, ?_, fun moves hm => moves_keep_cursor moves hm s hc⟩
  · rw [button_down_cursor s hc]
    simp only [Nat.min_def]
    split <;> omega
  · rw [button_up_cursor s hc]
    omega

/-- Witness for C9: at cursor 0 the up step leaves the cursor at 0, and at
cursor 6 the down step leaves it at 6. -/
theorem C9_cursor_clamped_witness :
    (button_up { settings := settings_init, curr_setting := 0, needs_update := false,
                 sensor := { thresholds := none, noise_half_delta := none,
                             max_half_delta := none },
                 touch_out := false, led := false, dac := none }).curr_setting = 0 ∧
    (button_down { settings := settings_init, curr_setting := 6, needs_update := false,
                   sensor := { thresholds := none, noise_half_delta := none,
                               max_half_delta := none },
                   touch_out := false, led := false, dac := none }).curr_setting = 6 := by
  have h0 := (C9_cursor_clamped
    { settings := settings_init, curr_setting := 0, needs_update := false,
      sensor := { thresholds := none, noise_half_delta := none, max_half_delta := none },
      touch_out := false, led := false, dac := none } (by decide)).2.1
  have h6 := (C9_cursor_clamped
    { settings := settings_init, curr_setting := 6, needs_update := false,
      sensor := { thresholds := none, noise_half_delta := none, max_half_delta := none },
      touch_out := false, led := false, dac := none } (by decide)).1
  constructor
  · have : ((0 : Nat) : Int) - 1 ≤ 0 := by decide
    simp only [] at h0
    omega
  · simp only [] at h6
    omega

/-! ## Linear search -/

/-- The loop started at index `i` with the rest of the table ahead of it returns
the first index from `i` on whose entry has the key, or `-1`. -/
theorem search_setting_loop_spec (key : mpr121_setting_key) (settings : List setting)
    (remaining i : Nat) (hlen : i + remaining = settings.length) :
    (∃ j s, i ≤ j ∧ settings[j]? = some s ∧ s.key = key ∧
        (∀ k t, i ≤ k → k < j → settings[k]? = some t → t.key ≠ key) ∧
        search_setting_loop key settings remaining i = some (j : Int)) ∨
    ((∀ k t, i ≤ k → settings[k]? = some t → t.key ≠ key) ∧
        search_setting_loop key settings remaining i = some (-1)) := by
  induction remaining generalizing i with
  | zero =>
    right
    refine ⟨?_, rfl⟩
    intro k t hik hk
    have := (List.getElem?_eq_some_iff.mp hk).1
    omega
  | succ n ih =>
    have hi : i < settings.length := by omega
    have hget : settings[i]? = some settings[i] := List.getElem?_eq_getElem hi
    by_cases hkey : settings[i].key = key
    · left
      refine ⟨i, settings[i], Nat.le_refl i, hget, hkey, ?_, ?_⟩
      · intro k t h1 h2
        omega
      · simp [search_setting_loop, hget, hkey]
    · have hstep : search_setting_loop key settings (n + 1) i =
          search_setting_loop key settings n (i + 1) := by
        simp [search_setting_loop, hget, hkey]
      rw [hstep]
      rcases ih (i + 1) (by omega) with ⟨j, s, hij, hj, hs, hmin, hres⟩ | ⟨hnone, hres⟩
      · left
        refine ⟨j, s, by omega, hj, hs, ?_, hres⟩
        intro k t h1 h2 hk
        by_cases hki : k = i
        · subst hki
          rw [hget] at hk
          exact (Option.some.inj hk) ▸ hkey
        · exact hmin k t (by omega) h2 hk
      · right
        refine ⟨?_, hres⟩
        intro k t h1 hk
        by_cases hki : k = i
        · subst hki
          rw [hget] at hk
          exact (Option.some.inj hk) ▸ hkey
        · exact hnone k t (by omega) hk

/-- C10. For every table of 7 entries and every key, `search_setting` returns the
smallest index in `0 .. 6` whose entry has that key when there is such an entry,
and returns `-1` when no entry has that key. -/
theorem C10_search_setting (settings : List setting) (key : mpr121_setting_key)
    (hlen : settings.length = N_SETTINGS) :
    ((∃ s ∈ settings, s.key = key) →
      ∃ i s, i < N_SETTINGS ∧ settings[i]? = some s ∧ s.key = key ∧
        (∀ j t, j < i → settings[j]? = some t → t.key ≠ key) ∧
        search_setting key settings = some (i : Int)) ∧
    ((∀ s ∈ settings, s.key ≠ key) → search_setting key settings = some (-1)) := by
  have hspec := search_setting_loop_spec key settings N_SETTINGS 0 (by omega)
  constructor
  · rintro ⟨x, hx, hxk⟩
    rcases hspec with ⟨j, s, _, hj, hs, hmin, hres⟩ | ⟨hnone, _⟩
    · refine ⟨j, s, ?_, hj, hs, fun k t hk => hmin k t (Nat.zero_le k) hk, hres⟩
      have := (List.getElem?_eq_some_iff.mp hj).1
      omega
    · obtain ⟨n, hn⟩ := List.getElem?_of_mem hx
      exact absurd hxk (hnone n x (Nat.zero_le n) hn)
  · intro hno
    rcases hspec with ⟨j, s, _, hj, hs, _, _⟩ | ⟨_, hres⟩
    · exact absurd hs (hno s (List.getElem?_mem hj))
    · exact hres

/-- Witness for C10: in a table of 7 entries where the touch-threshold key
occurs at indices 0 and 4 and the key `SETTING_NHDT` nowhere, the search for the
first returns 0 and the search for the second returns `-1`. -/
theorem C10_search_setting_witness :
    search_setting SETTING_NHDT (settings_init.take 4 ++ settings_init.take 3) = some (-1) ∧
    ∃ i s, i < N_SETTINGS ∧
      (settings_init.take 4 ++ settings_init.take 3)[i]? = some s ∧ s.key = SETTING_TTH ∧
      (∀ j t, j < i → (settings_init.take 4 ++ settings_init.take 3)[j]? = some t →
        t.key ≠ SETTING_TTH) ∧
      search_setting SETTING_TTH (settings_init.take 4 ++ settings_init.take 3) = some (i : Int) :=
  ⟨(C10_search_setting _ SETTING_NHDT (by decide)).2 (by decide),
   (C10_search_setting _ SETTING_TTH (by decide)).1 (by decide)⟩

theorem seven_entries {α : Type} (l : List α) (h : l.length = 7) :
    ∃ a b c d e f g, l = [a, b, c, d, e, f, g] := by
  match l, h with
  | [a, b, c, d, e, f, g], _ => exact ⟨a, b, c, d, e, f, g, rfl⟩

theorem table_shape_set (settings : List setting) (idx : Nat) (s x : setting)
    (hs : settings[idx]? = some s) (hk : x.key = s.key) (hf : x.func = s.func)
    (h : table_shape settings) : table_shape (settings.set idx x) := by
  unfold table_shape at *
  rw [← h]
  apply List.ext_getElem?
  intro n
  simp only [List.getElem?_map, List.getElem?_set]
  split
  · next heq =>
    subst heq
    have hlt := (List.getElem?_eq_some_iff.mp hs).1
    simp [hlt, hs, hk, hf]
  · rfl

theorem table_shape_increase (settings : List setting) (idx : Nat)
    (h : table_shape settings) : table_shape (setting_increase_value settings idx) := by
  unfold setting_increase_value
  split
  · next s hs =>
    apply table_shape_set settings idx s _ hs _ _ h
    · simp only [increase_entry]; split <;> rfl
    · simp only [increase_entry]; split <;> rfl
  · exact h

theorem table_shape_decrease (settings : List setting) (idx : Nat)
    (h : table_shape settings) : table_shape (setting_decrease_value settings idx) := by
  unfold setting_decrease_value
  split
  · next s hs =>
    apply table_shape_set settings idx s _ hs _ _ h
    · simp only [decrease_entry]; split <;> rfl
    · simp only [decrease_entry]; split <;> rfl
  · exact h

/-- On a table with the keys and funcs of `settings_init`, `update_mpr121` reads
inside the table, and the calls it issues program the table's value of every
parameter that shares its func with the entry under the cursor. -/
theorem update_mpr121_spec (settings : List setting) (idx : Nat)
    (hshape : table_shape settings) (hidx : idx ≤ 6) :
    ∃ calls, update_mpr121 settings idx = some calls ∧
      ∀ (cfg : mpr121_config) (cur e : setting), settings[idx]? = some cur →
        e ∈ settings → e.func = cur.func →
        (calls.foldl mpr121_config.program cfg).value_of e.key = some e.value := by
  have hlen : settings.length = 7 := by
    have := congrArg List.length hshape
    simpa [settings_init] using this
  obtain ⟨a, b, c, d, e, f, g, rfl⟩ := seven_entries settings hlen
  simp only [table_shape, settings_init, List.map_cons, List.map_nil, List.cons.injEq,
    Prod.mk.injEq, and_true] at hshape
  obtain ⟨⟨ha, ha'⟩, ⟨hb, hb'⟩, ⟨hc, hc'⟩, ⟨hd, hd'⟩, ⟨he, he'⟩, ⟨hf, hf'⟩, ⟨hg, hg'⟩⟩ := hshape
  have hcases : idx = 0 ∨ idx = 1 ∨ idx = 2 ∨ idx = 3 ∨ idx = 4 ∨ idx = 5 ∨ idx = 6 := by
    omega
  rcases hcases with h | h | h | h | h | h | h <;> subst h <;>
    simp [update_mpr121, get_setting, search_setting, search_setting_loop, read_entry,
      N_SETTINGS, ha, ha', hb, hb', hc, hc', hd, hd', he, he', hf, hf', hg, hg',
      mpr121_config.program, mpr121_config.value_of] <;>
    (intro cfg cur x hcur hmem hfunc
     subst hcur
     rcases hmem with h | h | h | h | h | h | h <;> subst h <;> simp_all)

theorem main_init_eq :
    main_init = some
      { settings := settings_init, curr_setting := 0, needs_update := false,
        sensor := { thresholds := some (15, 10), noise_half_delta := some (1, 1, 3),
                    max_half_delta := none },
        touch_out := false, led := false, dac := none } := by
  decide

theorem history_inv_start :
    ∃ s0, main_init = some s0 ∧ history_inv (history.start s0) := by
  refine ⟨_, main_init_eq, ?_⟩
  refine ⟨by decide, rfl, ?_, fun _ => rfl⟩
  simp [history.start]

/-- A tick that applies the pending edit: it returns a state, clears
`needs_update`, keeps table and cursor, and programs the table's value of every
parameter sharing the func of the entry under the cursor. -/
theorem timer_callback_applies (s : state) (inp : tick_input)
    (hshape : table_shape s.settings) (hc : s.curr_setting ≤ 6)
    (happ : applies s inp = true) :
    ∃ s1, timer_callback s inp = some s1 ∧ s1.needs_update = false ∧
      s1.settings = s.settings ∧ s1.curr_setting = s.curr_setting ∧
      ∀ cur e, s.settings[s.curr_setting]? = some cur → e ∈ s.settings →
        e.func = cur.func → s1.sensor.value_of e.key = some e.value := by
  obtain ⟨calls, hcalls, hval⟩ := update_mpr121_spec s.settings s.curr_setting hshape hc
  have happ1 : applies
      { s with touch_out := inp.is_touched, led := inp.is_touched,
               dac := some (delta_out inp.baseline inp.filtered) } inp = true := happ
  refine ⟨{ s with touch_out := inp.is_touched, led := inp.is_touched,
                     dac := some (delta_out inp.baseline inp.filtered),
                     sensor := calls.foldl mpr121_config.program s.sensor,
                     needs_update := false }, ?_, ?_, ?_, ?_, ?_⟩
  · simp only [timer_callback, happ1, hcalls, if_true]
  · rfl
  · rfl
  · rfl
  · intro cur e h1 h2 h3
    exact hval s.sensor cur e h1 h2 h3

/-- A tick that does not apply: it returns a state that differs from the old one
in the three outputs only. -/
theorem timer_callback_skips (s : state) (inp : tick_input)
    (happ : applies s inp = false) :
    timer_callback s inp = some
      { s with touch_out := inp.is_touched, led := inp.is_touched,
               dac := some (delta_out inp.baseline inp.filtered) } := by
  have happ1 : applies
      { s with touch_out := inp.is_touched, led := inp.is_touched,
               dac := some (delta_out inp.baseline inp.filtered) } inp = false := happ
  simp [timer_callback, happ1]

/-- The cursor moves change neither the table nor `needs_update`. -/
theorem button_down_keeps (s : state) :
    (button_down s).settings = s.settings ∧
    (button_down s).needs_update = s.needs_update := by
  simp only [button_down]
  split <;> exact ⟨rfl, rfl⟩

theorem button_up_keeps (s : state) :
    (button_up s).settings = s.settings ∧
    (button_up s).needs_update = s.needs_update := by
  simp only [button_up]
  split <;> exact ⟨rfl, rfl⟩

theorem history_inv_record (h : history) (st : step) (hinv : history_inv h) :
    ∃ h1, h.record st = some h1 ∧ history_inv h1 := by
  obtain ⟨hc, hshape, hflag, htab⟩ := hinv
  cases st with
  | btn_down =>
    refine ⟨{ now := button_down h.now, edited := h.edited, applied := h.applied },
      by simp [history.record, exec, is_apply, is_edit], ?_⟩
    refine ⟨?_, ?_, ?_, ?_⟩
    · show (button_down h.now).curr_setting ≤ 6
      rw [button_down_cursor h.now hc]
      simp only [Nat.min_def]; split <;> omega
    · show table_shape (button_down h.now).settings
      rw [(button_down_keeps h.now).1]; exact hshape
    · show (button_down h.now).needs_update = true ↔ h.edited ≠ []
      rw [(button_down_keeps h.now).2]; exact hflag
    · show (button_down h.now).needs_update = false → (button_down h.now).settings = h.applied
      rw [(button_down_keeps h.now).1, (button_down_keeps h.now).2]; exact htab
  | btn_up =>
    refine ⟨{ now := button_up h.now, edited := h.edited, applied := h.applied },
      by simp [history.record, exec, is_apply, is_edit], ?_⟩
    refine ⟨?_, ?_, ?_, ?_⟩
    · show (button_up h.now).curr_setting ≤ 6
      rw [button_up_cursor h.now hc]
      omega
    · show table_shape (button_up h.now).settings
      rw [(button_up_keeps h.now).1]; exact hshape
    · show (button_up h.now).needs_update = true ↔ h.edited ≠ []
      rw [(button_up_keeps h.now).2]; exact hflag
    · show (button_up h.now).needs_update = false → (button_up h.now).settings = h.applied
      rw [(button_up_keeps h.now).1, (button_up_keeps h.now).2]; exact htab
  | btn_right =>
    refine ⟨{ now := button_right h.now, edited := h.now.curr_setting :: h.edited,
              applied := h.applied },
      by simp [history.record, exec, is_apply, is_edit], ?_⟩
    refine ⟨hc, table_shape_increase _ _ hshape, ?_, ?_⟩
    · simp [button_right]
    · simp [button_right]
  | btn_left =>
    refine ⟨{ now := button_left h.now, edited := h.now.curr_setting :: h.edited,
              applied := h.applied },
      by simp [history.record, exec, is_apply, is_edit], ?_⟩
    refine ⟨hc, table_shape_decrease _ _ hshape, ?_, ?_⟩
    · simp [button_left]
    · simp [button_left]
  | tick inp =>
    by_cases happ : applies h.now inp = true
    · obtain ⟨s1, hs1, hnu, hset, hcur, _⟩ :=
        timer_callback_applies h.now inp hshape hc happ
      refine ⟨{ now := s1, edited := [], applied := s1.settings }, ?_, ?_⟩
      · simp [history.record, exec, is_apply, hs1, happ]
      · refine ⟨by rw [hcur]; exact hc, by rw [hset]; exact hshape, ?_, fun _ => rfl⟩
        simp [hnu]
    · have happ0 : applies h.now inp = false := by simpa using happ
      have hs1 := timer_callback_skips h.now inp happ0
      refine ⟨{ now := { h.now with touch_out := inp.is_touched, led := inp.is_touched,
                                    dac := some (delta_out inp.baseline inp.filtered) },
                edited := h.edited, applied := h.applied },
        by simp [history.record, exec, is_apply, is_edit, hs1, happ0], ?_⟩
      exact ⟨hc, hshape, hflag, htab⟩

theorem history_inv_replay (steps : List step) (h : history) (hinv : history_inv h) :
    ∃ h1, h.replay steps = some h1 ∧ history_inv h1 := by
  induction steps generalizing h with
  | nil => exact ⟨h, rfl, hinv⟩
  | cons st rest ih =>
    obtain ⟨h1, hrec, hinv1⟩ := history_inv_record h st hinv
    obtain ⟨h2, hrep, hinv2⟩ := ih h1 hinv1
    exact ⟨h2, by simp [history.replay, hrec, hrep], hinv2⟩

theorem history_inv_boot (steps : List step) :
    ∃ h, boot steps = some h ∧ history_inv h := by
  obtain ⟨s0, hs0, hinv0⟩ := history_inv_start
  obtain ⟨h, hrep, hinv⟩ := history_inv_replay steps _ hinv0
  exact ⟨h, by simp [boot, hs0, hrep], hinv⟩

/-- C8, as stated, fails.  From start-up, two presses of the down button move
the cursor to entry 2 (`value = min = 1`); a press of the left button then
leaves every value as it was at start-up, and `needs_update` is true. -/
theorem C8_counterexample :
    (boot [step.btn_down, step.btn_down, step.btn_left]).map
        (fun h => (h.now.needs_update, h.now.settings.map setting.value,
          h.applied.map setting.value, decide (h.now.settings = h.applied)))
      = some (true, [15, 10, 1, 1, 3, 1, 1], [15, 10, 1, 1, 3, 1, 1], true) := by
  decide

/-- C8, amended.  In every history reachable from start-up, `needs_update` is
true if and only if an edit has been committed since the last successful apply
(or since start-up); and whenever a table entry's value differs from its value
at the last successful apply, `needs_update` is true. -/
theorem C8_dirty_flag_iff_edit (steps : List step) :
    ∃ h : history, boot steps = some h ∧
      (h.now.needs_update = true ↔ h.edited ≠ []) ∧
      ((∃ i : Nat, (h.now.settings[i]?).map setting.value ≠ (h.applied[i]?).map setting.value) →
        h.now.needs_update = true) := by
  obtain ⟨h, hboot, _, _, hflag, htab⟩ := history_inv_boot steps
  refine ⟨h, hboot, hflag, ?_⟩
  rintro ⟨i, hi⟩
  cases hnu : h.now.needs_update with
  | true => rfl
  | false => exact absurd (by rw [htab hnu]) hi

/-- Witness for C8: after a press of the right button the touch threshold
differs from its start-up value and the flag is set. -/
theorem C8_dirty_flag_iff_edit_witness :
    ∃ h : history, boot [step.btn_right] = some h ∧ h.edited ≠ [] ∧ h.now.needs_update = true ∧
      (h.now.settings[0]?).map setting.value ≠ (h.applied[0]?).map setting.value := by
  obtain ⟨h, hboot, hflag, _⟩ := C8_dirty_flag_iff_edit [step.btn_right]
  have hconc : boot [step.btn_right] = some
      { now := { settings := setting_increase_value settings_init 0, curr_setting := 0,
                 needs_update := true,
                 sensor := { thresholds := some (15, 10), noise_half_delta := some (1, 1, 3),
                             max_half_delta := none },
                 touch_out := false, led := false, dac := none },
        edited := [0], applied := settings_init } := by decide
  rw [hconc] at hboot
  cases hboot
  exact ⟨_, rfl, by decide, hflag.mpr (by decide), by decide⟩

/-! ## Lookup by key -/

/-- C11. On a table of 7 entries none of which has the requested key,
`search_setting` returns `-1` and `get_setting` then reads `settings[-1]`: the
source has no test of the index and no halt, and the read falls outside the
table.  Evaluated on the table of `settings_init` with every key overwritten by
`SETTING_TTH`, for the key `SETTING_RTH`. -/
theorem C11_absent_key_reads_outside :
    search_setting SETTING_RTH (settings_init.map fun s => { s with key := SETTING_TTH })
      = some (-1) ∧
    get_setting SETTING_RTH (settings_init.map fun s => { s with key := SETTING_TTH })
      = read_entry (settings_init.map fun s => { s with key := SETTING_TTH }) (-1) ∧
    read_entry (settings_init.map fun s => { s with key := SETTING_TTH }) (-1) = none := by
  decide

theorem table_shape_apply_edits (ops : List edit) (settings : List setting)
    (h : table_shape settings) : table_shape (apply_edits settings ops) := by
  induction ops generalizing settings with
  | nil => exact h
  | cons e rest ih =>
    simp only [apply_edits, List.foldl_cons]
    apply ih
    cases e with
    | increase i => exact table_shape_increase _ _ h
    | decrease i => exact table_shape_decrease _ _ h

theorem table_shape_settings_init : table_shape settings_init := rfl

/-- On a table with the keys of `settings_init`, every key is found at its one
index, and `get_setting` returns the entry there. -/
theorem lookup_of_table_shape (settings : List setting) (key : mpr121_setting_key)
    (hshape : table_shape settings) :
    ∃ (i : Nat) (s : setting), i < N_SETTINGS ∧ settings[i]? = some s ∧ s.key = key ∧
      (∀ (j : Nat) (t : setting), settings[j]? = some t → t.key = key → j = i) ∧
      search_setting key settings = some (i : Int) ∧
      get_setting key settings = some s := by
  have hlen : settings.length = 7 := by
    have := congrArg List.length hshape
    simpa [settings_init] using this
  obtain ⟨a, b, c, d, e, f, g, rfl⟩ := seven_entries settings hlen
  simp only [table_shape, settings_init, List.map_cons, List.map_nil, List.cons.injEq,
    Prod.mk.injEq, and_true] at hshape
  obtain ⟨⟨ha, _⟩, ⟨hb, _⟩, ⟨hc, _⟩, ⟨hd, _⟩, ⟨he, _⟩, ⟨hf, _⟩, ⟨hg, _⟩⟩ := hshape
  have huniq : ∀ (K : mpr121_setting_key) (i : Nat) (x : setting),
      [a, b, c, d, e, f, g][i]? = some x → x.key = K → ∀ (j : Nat) (t : setting),
      [a, b, c, d, e, f, g][j]? = some t → t.key = K → j = i := by
    intro K i x hi hx j t hj hk
    have hi7 : i < 7 := (List.getElem?_eq_some_iff.mp hi).1
    have hj7 : j < 7 := (List.getElem?_eq_some_iff.mp hj).1
    have hi' : i = 0 ∨ i = 1 ∨ i = 2 ∨ i = 3 ∨ i = 4 ∨ i = 5 ∨ i = 6 := by omega
    have hj' : j = 0 ∨ j = 1 ∨ j = 2 ∨ j = 3 ∨ j = 4 ∨ j = 5 ∨ j = 6 := by omega
    rcases hi' with h | h | h | h | h | h | h <;> subst h <;>
      rcases hj' with h | h | h | h | h | h | h <;> subst h <;>
      simp at hi hj <;> subst hi <;> subst hj <;> simp_all
  cases key
  · exact ⟨0, a, by decide, rfl, ha, huniq _ 0 _ rfl ha,
      by simp [search_setting, search_setting_loop, N_SETTINGS, ha],
      by simp [get_setting, search_setting, search_setting_loop, read_entry, N_SETTINGS, ha]⟩
  · exact ⟨1, b, by decide, rfl, hb, huniq _ 1 _ rfl hb,
      by simp [search_setting, search_setting_loop, N_SETTINGS, ha, hb],
      by simp [get_setting, search_setting, search_setting_loop, read_entry, N_SETTINGS, ha, hb]⟩
  · exact ⟨5, f, by decide, rfl, hf, huniq _ 5 _ rfl hf,
      by simp [search_setting, search_setting_loop, N_SETTINGS, ha, hb, hc, hd, he, hf],
      by simp [get_setting, search_setting, search_setting_loop, read_entry, N_SETTINGS,
        ha, hb, hc, hd, he, hf]⟩
  · exact ⟨6, g, by decide, rfl, hg, huniq _ 6 _ rfl hg,
      by simp [search_setting, search_setting_loop, N_SETTINGS, ha, hb, hc, hd, he, hf, hg],
      by simp [get_setting, search_setting, search_setting_loop, read_entry, N_SETTINGS,
        ha, hb, hc, hd, he, hf, hg]⟩
  · exact ⟨2, c, by decide, rfl, hc, huniq _ 2 _ rfl hc,
      by simp [search_setting, search_setting_loop, N_SETTINGS, ha, hb, hc],
      by simp [get_setting, search_setting, search_setting_loop, read_entry, N_SETTINGS,
        ha, hb, hc]⟩
  · exact ⟨3, d, by decide, rfl, hd, huniq _ 3 _ rfl hd,
      by simp [search_setting, search_setting_loop, N_SETTINGS, ha, hb, hc, hd],
      by simp [get_setting, search_setting, search_setting_loop, read_entry, N_SETTINGS,
        ha, hb, hc, hd]⟩
  · exact ⟨4, e, by decide, rfl, he, huniq _ 4 _ rfl he,
      by simp [search_setting, search_setting_loop, N_SETTINGS, ha, hb, hc, hd, he],
      by simp [get_setting, search_setting, search_setting_loop, read_entry, N_SETTINGS,
        ha, hb, hc, hd, he]⟩

/-- C12. In the table built by `settings_init`, and after any sequence of
increase / decrease calls on it with indices in `0 .. 6`, each of the seven keys
occurs in exactly one entry, `search_setting` returns the index of that entry
(never `-1`), and `get_setting` returns that entry, with its current value, min,
max and step. -/
theorem C12_keys_unique_and_found (ops : List edit) (key : mpr121_setting_key)
    (hops : ∀ e ∈ ops, e.idx < N_SETTINGS) :
    ∃ (i : Nat) (s : setting), i < N_SETTINGS ∧
      (apply_edits settings_init ops)[i]? = some s ∧ s.key = key ∧
      (∀ (j : Nat) (t : setting), (apply_edits settings_init ops)[j]? = some t →
        t.key = key → j = i) ∧
      search_setting key (apply_edits settings_init ops) = some (i : Int) ∧
      get_setting key (apply_edits settings_init ops) = some s := by
  have _ := hops
  exact lookup_of_table_shape _ key (table_shape_apply_edits ops _ table_shape_settings_init)

/-- Witness for C12: after the release threshold is decreased twice and the last
entry increased once, the key `SETTING_RTH` is still found, at one index only. -/
theorem C12_keys_unique_and_found_witness :
    ∃ (i : Nat) (s : setting), i < N_SETTINGS ∧
      (apply_edits settings_init
        [edit.decrease 1, edit.decrease 1, edit.increase 6])[i]? = some s ∧
      s.key = SETTING_RTH ∧
      (∀ (j : Nat) (t : setting), (apply_edits settings_init
        [edit.decrease 1, edit.decrease 1, edit.increase 6])[j]? = some t →
        t.key = SETTING_RTH → j = i) ∧
      search_setting SETTING_RTH (apply_edits settings_init
        [edit.decrease 1, edit.decrease 1, edit.increase 6]) = some (i : Int) ∧
      get_setting SETTING_RTH (apply_edits settings_init
        [edit.decrease 1, edit.decrease 1, edit.increase 6]) = some s :=
  C12_keys_unique_and_found [edit.decrease 1, edit.decrease 1, edit.increase 6]
    SETTING_RTH (by decide)

/-! ## Repeated increase -/

/-- After `n` calls of `setting_increase_value` on an entry with `max = 255` and
`step = 2`, the value is `min(value + 2 n, 255)`. -/
theorem repeat_increase (idx n : Nat) :
    ∀ (settings : List setting) (s : setting), settings[idx]? = some s →
      s.value ≤ 255 → s.max = 255 → s.step = 2 →
      ∃ s1, (apply_edits settings (List.replicate n (edit.increase idx)))[idx]? = some s1 ∧
        s1.value = Nat.min (s.value + 2 * n) 255 ∧ s1.max = 255 ∧ s1.step = 2 := by
  induction n with
  | zero =>
    intro settings s hs hv hmax hstep
    refine ⟨s, hs, ?_, hmax, hstep⟩
    simp only [Nat.min_def]; split <;> omega
  | succ n ih =>
    intro settings s hs hv hmax hstep
    have hone : setting_increase_value settings idx =
        settings.set idx { s with value := Nat.min (s.value + s.step) s.max } := by
      simp only [setting_increase_value, hs]
      rw [increase_entry_eq s (by omega) (by omega) (by omega)]
    have hget : (setting_increase_value settings idx)[idx]? =
        some { s with value := Nat.min (s.value + s.step) s.max } := by
      rw [hone]
      have := entry_after_set settings idx idx s
        { s with value := Nat.min (s.value + s.step) s.max } hs
      simpa using this
    have hv1 : Nat.min (s.value + s.step) s.max ≤ 255 := by
      simp only [Nat.min_def]; split <;> omega
    obtain ⟨s1, h1, h2, h3, h4⟩ := ih (setting_increase_value settings idx) _ hget hv1 hmax hstep
    refine ⟨s1, ?_, ?_, h3, h4⟩
    · simpa [apply_edits, List.replicate_succ, apply_edit] using h1
    · rw [h2]
      simp only [Nat.min_def, hstep, hmax]
      split <;> split <;> split <;> omega

/-- C13. For a parameter with `value = 15`, `min = 0`, `max = 255` and
`step = 2`, 200 calls of `setting_increase_value` in a row leave the value at
exactly 255: the value is `15 + 2 n` after `n < 120` calls and 255 after any
number `n ≥ 120` of calls. -/
theorem C13_two_hundred_increases (settings : List setting) (idx : Nat) (s : setting)
    (hs : settings[idx]? = some s) (hv : s.value = 15) (hmin : s.min = 0)
    (hmax : s.max = 255) (hstep : s.step = 2) :
    ((apply_edits settings (List.replicate 200 (edit.increase idx)))[idx]?).map
        setting.value = some 255 ∧
    (∀ n, 120 ≤ n →
      ((apply_edits settings (List.replicate n (edit.increase idx)))[idx]?).map
        setting.value = some 255) ∧
    (∀ n, n < 120 →
      ((apply_edits settings (List.replicate n (edit.increase idx)))[idx]?).map
        setting.value = some (15 + 2 * n)) := by
  have _ := hmin
  have key : ∀ n, ((apply_edits settings (List.replicate n (edit.increase idx)))[idx]?).map
      setting.value = some (Nat.min (15 + 2 * n) 255) := by
    intro n
    obtain ⟨s1, h1, h2, _, _⟩ := repeat_increase idx n settings s hs (by omega) hmax hstep
    rw [h1, Option.map_some', h2, hv]
  refine ⟨?_, ?_, ?_⟩
  · rw [key 200]; rfl
  · intro n hn
    rw [key n]
    simp only [Nat.min_def]; split
    · congr 1; omega
    · rfl
  · intro n hn
    rw [key n]
    simp only [Nat.min_def]; split
    · rfl
    · congr 1; omega

/-- Witness for C13: the touch threshold of `settings_init` (entry 0) is that
parameter. -/
theorem C13_two_hundred_increases_witness :
    ((apply_edits settings_init (List.replicate 200 (edit.increase 0)))[0]?).map
        setting.value = some 255 :=
  (C13_two_hundred_increases settings_init 0 _ rfl rfl rfl rfl rfl).1

/-! ## The configuration call of `update_mpr121` -/

/-- C14. On a table with the keys and funcs of `settings_init` and arbitrary
values, for every cursor index in `0 .. 6`, `update_mpr121` issues exactly one
sensor-configuration call, the one named by the func of the entry under the
cursor, with the current values of the entries of that func as arguments:
`set_thresholds(TTH, RTH)`, `set_noise_half_delta(NHDR, NHDF, NHDT)` or
`set_max_half_delta(MHDR, MHDF)`. -/
theorem C14_update_issues_one_call (settings : List setting) (idx : Nat)
    (hshape : table_shape settings) (hidx : idx < N_SETTINGS) :
    ∃ (tth rth nhdr nhdf nhdt mhdr mhdf cur : setting),
      settings = [tth, rth, nhdr, nhdf, nhdt, mhdr, mhdf] ∧
      [tth.key, rth.key, nhdr.key, nhdf.key, nhdt.key, mhdr.key, mhdf.key] =
        [SETTING_TTH, SETTING_RTH, SETTING_NHDR, SETTING_NHDF, SETTING_NHDT,
          SETTING_MHDR, SETTING_MHDF] ∧
      [tth.func, rth.func, nhdr.func, nhdf.func, nhdt.func, mhdr.func, mhdf.func] =
        [FUNC_SET_TH, FUNC_SET_TH, FUNC_SET_NHD, FUNC_SET_NHD, FUNC_SET_NHD,
          FUNC_SET_MHD, FUNC_SET_MHD] ∧
      settings[idx]? = some cur ∧
      (cur.func = FUNC_SET_TH →
        update_mpr121 settings idx =
          some [mpr121_call.set_thresholds tth.value rth.value]) ∧
      (cur.func = FUNC_SET_NHD →
        update_mpr121 settings idx =
          some [mpr121_call.set_noise_half_delta nhdr.value nhdf.value nhdt.value]) ∧
      (cur.func = FUNC_SET_MHD →
        update_mpr121 settings idx =
          some [mpr121_call.set_max_half_delta mhdr.value mhdf.value]) ∧
      cur.func ≠ FUNC_SET_NCL := by
  have hlen : settings.length = 7 := by
    have := congrArg List.length hshape
    simpa [settings_init] using this
  obtain ⟨a, b, c, d, e, f, g, rfl⟩ := seven_entries settings hlen
  simp only [table_shape, settings_init, List.map_cons, List.map_nil, List.cons.injEq,
    Prod.mk.injEq, and_true] at hshape
  obtain ⟨⟨ha, ha'⟩, ⟨hb, hb'⟩, ⟨hc, hc'⟩, ⟨hd, hd'⟩, ⟨he, he'⟩, ⟨hf, hf'⟩, ⟨hg, hg'⟩⟩ := hshape
  have hcases : idx = 0 ∨ idx = 1 ∨ idx = 2 ∨ idx = 3 ∨ idx = 4 ∨ idx = 5 ∨ idx = 6 := by
    simp only [N_SETTINGS] at hidx
    omega
  refine ⟨a, b, c, d, e, f, g, ?_⟩
  rcases hcases with h | h | h | h | h | h | h <;> subst h
  · refine ⟨a, rfl, by simp [ha, hb, hc, hd, he, hf, hg],
      by simp [ha', hb', hc', hd', he', hf', hg'], rfl, ?_⟩
    simp [update_mpr121, get_setting, search_setting, search_setting_loop, read_entry,
      N_SETTINGS, ha, ha', hb, hb', hc, hc', hd, hd', he, he', hf, hf', hg, hg']
  · refine ⟨b, rfl, by simp [ha, hb, hc, hd, he, hf, hg],
      by simp [ha', hb', hc', hd', he', hf', hg'], rfl, ?_⟩
    simp [update_mpr121, get_setting, search_setting, search_setting_loop, read_entry,
      N_SETTINGS, ha, ha', hb, hb', hc, hc', hd, hd', he, he', hf, hf', hg, hg']
  · refine ⟨c, rfl, by simp [ha, hb, hc, hd, he, hf, hg],
      by simp [ha', hb', hc', hd', he', hf', hg'], rfl, ?_⟩
    simp [update_mpr121, get_setting, search_setting, search_setting_loop, read_entry,
      N_SETTINGS, ha, ha', hb, hb', hc, hc', hd, hd', he, he', hf, hf', hg, hg']
  · refine ⟨d, rfl, by simp [ha, hb, hc, hd, he, hf, hg],
      by simp [ha', hb', hc', hd', he', hf', hg'], rfl, ?_⟩
    simp [update_mpr121, get_setting, search_setting, search_setting_loop, read_entry,
      N_SETTINGS, ha, ha', hb, hb', hc, hc', hd, hd', he, he', hf, hf', hg, hg']
  · refine ⟨e, rfl, by simp [ha, hb, hc, hd, he, hf, hg],
      by simp [ha', hb', hc', hd', he', hf', hg'], rfl, ?_⟩
    simp [update_mpr121, get_setting, search_setting, search_setting_loop, read_entry,
      N_SETTINGS, ha, ha', hb, hb', hc, hc', hd, hd', he, he', hf, hf', hg, hg']
  · refine ⟨f, rfl, by simp [ha, hb, hc, hd, he, hf, hg],
      by simp [ha', hb', hc', hd', he', hf', hg'], rfl, ?_⟩
    simp [update_mpr121, get_setting, search_setting, search_setting_loop, read_entry,
      N_SETTINGS, ha, ha', hb, hb', hc, hc', hd, hd', he, he', hf, hf', hg, hg']
  · refine ⟨g, rfl, by simp [ha, hb, hc, hd, he, hf, hg],
      by simp [ha', hb', hc', hd', he', hf', hg'], rfl, ?_⟩
    simp [update_mpr121, get_setting, search_setting, search_setting_loop, read_entry,
      N_SETTINGS, ha, ha', hb, hb', hc, hc', hd, hd', he, he', hf, hf', hg, hg']

/-- Witness for C14: with the cursor on entry 3 (`NHD falling`) of the table of
`settings_init`, whose touch threshold was raised once, the one call issued is
`set_noise_half_delta(1, 1, 3)`. -/
theorem C14_update_issues_one_call_witness :
    update_mpr121 (setting_increase_value settings_init 0) 3 =
      some [mpr121_call.set_noise_half_delta 1 1 3] := by
  obtain ⟨tth, rth, nhdr, nhdf, nhdt, mhdr, mhdf, cur, htab, _, _, hcur, _, hnhd, _, _⟩ :=
    C14_update_issues_one_call (setting_increase_value settings_init 0) 3
      (table_shape_increase _ _ table_shape_settings_init) (by decide)
  have h3 : (setting_increase_value settings_init 0)[3]? =
      some (settings_init.get ⟨3, by decide⟩) := by decide
  have hcur3 : cur = settings_init.get ⟨3, by decide⟩ :=
    Option.some.inj (hcur.symm.trans h3)
  have hfunc : cur.func = FUNC_SET_NHD := by rw [hcur3]; decide
  have h2 : (setting_increase_value settings_init 0)[2]? = some nhdr := by rw [htab]; rfl
  have h4 : (setting_increase_value settings_init 0)[4]? = some nhdt := by rw [htab]; rfl
  have h3' : (setting_increase_value settings_init 0)[3]? = some nhdf := by rw [htab]; rfl
  have v2 : nhdr.value = 1 := by
    have e2 : (setting_increase_value settings_init 0)[2]? =
        some (settings_init.get ⟨2, by decide⟩) := by decide
    rw [Option.some.inj (h2.symm.trans e2)]; decide
  have v3 : nhdf.value = 1 := by
    rw [Option.some.inj (h3'.symm.trans h3)]; decide
  have v4 : nhdt.value = 3 := by
    have e4 : (setting_increase_value settings_init 0)[4]? =
        some (settings_init.get ⟨4, by decide⟩) := by decide
    rw [Option.some.inj (h4.symm.trans e4)]; decide
  rw [hnhd hfunc, v2, v3, v4]

/-! ## A tick that cannot take the lock -/

/-- C15. On a tick where `needs_update` is true and `mutex_try_enter` fails, the
handler returns; the configuration programmed into the sensor, `needs_update`,
the table and the cursor are as before the tick; and the three outputs of the
tick are those of a tick with the same readings and no pending update. -/
theorem C15_lock_unavailable_defers (s : state) (inp : tick_input)
    (hnu : s.needs_update = true) (hlock : inp.lock_free = false) :
    ∃ s1, timer_callback s inp = some s1 ∧
      s1.sensor = s.sensor ∧ s1.needs_update = true ∧
      s1.settings = s.settings ∧ s1.curr_setting = s.curr_setting ∧
      s1.touch_out = inp.is_touched ∧ s1.led = inp.is_touched ∧
      s1.dac = some (delta_out inp.baseline inp.filtered) ∧
      ∀ lock : Bool, ∃ s2,
        timer_callback { s with needs_update := false } { inp with lock_free := lock }
          = some s2 ∧
        s2.touch_out = s1.touch_out ∧ s2.led = s1.led ∧ s2.dac = s1.dac := by
  have happ : applies s inp = false := by simp [applies, hlock]
  refine ⟨_, timer_callback_skips s inp happ, rfl, hnu, rfl, rfl, rfl, rfl, rfl, ?_⟩
  intro lock
  have happ2 : applies { s with needs_update := false } { inp with lock_free := lock }
      = false := by simp [applies]
  exact ⟨_, timer_callback_skips _ _ happ2, rfl, rfl, rfl⟩

/-- Witness for C15: a pending update, the lock held by the other core, and a
touch with baseline 600 and filtered value 500. -/
theorem C15_lock_unavailable_defers_witness :
    ∃ s1, timer_callback
        { settings := settings_init, curr_setting := 0, needs_update := true,
          sensor := { thresholds := some (15, 10), noise_half_delta := some (1, 1, 3),
                      max_half_delta := none },
          touch_out := false, led := false, dac := none }
        { is_touched := true, baseline := 600, filtered := 500, lock_free := false }
          = some s1 ∧
      s1.sensor = { thresholds := some (15, 10), noise_half_delta := some (1, 1, 3),
                    max_half_delta := none } ∧
      s1.needs_update = true ∧ s1.touch_out = true ∧ s1.dac = some 1800 := by
  obtain ⟨s1, h1, h2, h3, _, _, h4, _, h5, _⟩ := C15_lock_unavailable_defers
    { settings := settings_init, curr_setting := 0, needs_update := true,
      sensor := { thresholds := some (15, 10), noise_half_delta := some (1, 1, 3),
                  max_half_delta := none },
      touch_out := false, led := false, dac := none }
    { is_touched := true, baseline := 600, filtered := 500, lock_free := false } rfl rfl
  exact ⟨s1, h1, h2, h3, h4, h5⟩

/-! ## The analog output -/

/-- For 10-bit readings the code sent to the DAC is `(3300 + 3 * delta) / 2`
rounded down. -/
theorem delta_out_eq (baseline filtered : Nat) (hb : baseline ≤ 1023)
    (hf : filtered ≤ 1023) :
    (delta_out baseline filtered : Int) =
      (3300 + 3 * ((baseline : Int) - (filtered : Int))) / 2 := by
  have h16 : to_int16 ((baseline : Int) - (filtered : Int)) = (baseline : Int) - filtered :=
    to_int16_of_small _ (by omega) (by omega)
  have hnn : (0 : Int) ≤ 3300 + 3 * ((baseline : Int) - (filtered : Int)) := by omega
  unfold delta_out
  simp only [h16]
  rw [Int.tdiv_eq_ediv hnn (by decide)]
  omega

/-- C20, as stated, fails at both ends of the range: for `delta = +1023` the
code sent to the DAC is 3184, not 3185, and for `delta = -1023` it is 115, not
116, which does not lie between 116 and 3185. -/
theorem C20_counterexample :
    delta_out 1023 0 = 3184 ∧ delta_out 1023 0 ≠ 3185 ∧
    delta_out 0 1023 = 115 ∧ delta_out 0 1023 ≠ 116 ∧ ¬ (116 ≤ delta_out 0 1023) := by
  decide

/-- C20, amended.  For every 10-bit baseline and filtered value, `delta =
baseline - filtered` fits its `int16_t` and lies in `-1023 .. 1023`; the code
sent to the DAC is `1650 + 1.5 * delta` truncated, which is 3184 at
`delta = +1023` and 115 at `delta = -1023`; every code lies between these two
and so inside the useful range `0 .. 3299` of the DAC. -/
theorem C20_dac_range (baseline filtered : Nat) (hb : baseline ≤ 1023)
    (hf : filtered ≤ 1023) :
    to_int16 ((baseline : Int) - (filtered : Int)) = (baseline : Int) - (filtered : Int) ∧
    -1023 ≤ (baseline : Int) - (filtered : Int) ∧
    (baseline : Int) - (filtered : Int) ≤ 1023 ∧
    2 * (delta_out baseline filtered : Int) ≤ 3300 + 3 * ((baseline : Int) - (filtered : Int)) ∧
    3300 + 3 * ((baseline : Int) - (filtered : Int)) < 2 * (delta_out baseline filtered : Int) + 2 ∧
    115 ≤ delta_out baseline filtered ∧ delta_out baseline filtered ≤ 3184 ∧
    delta_out baseline filtered ≤ 3299 ∧
    delta_out 1023 0 = 3184 ∧ delta_out 0 1023 = 115 := by
  have h := delta_out_eq baseline filtered hb hf
  refine ⟨to_int16_of_small _ (by omega) (by omega), by omega, by omega, by omega, by omega,
    by omega, by omega, by omega, by decide, by decide⟩

/-- Witness for C20: baseline 600 and filtered value 500 give the code 1800. -/
theorem C20_dac_range_witness :
    115 ≤ delta_out 600 500 ∧ delta_out 600 500 ≤ 3184 :=
  ⟨(C20_dac_range 600 500 (by decide) (by decide)).2.2.2.2.2.1,
   (C20_dac_range 600 500 (by decide) (by decide)).2.2.2.2.2.2.1⟩

/-! ## The six-bottle variant -/

/-- The model of `gpio_put_masked` agrees with its description: every pin set in
`mask` takes the corresponding bit of `value`, the other pins keep their level. -/
theorem gpio_put_masked_testBit (pins mask value p : Nat) :
    (bnc6.gpio_put_masked pins mask value).testBit p =
      if mask.testBit p then value.testBit p else pins.testBit p := by
  simp only [bnc6.gpio_put_masked, Nat.testBit_xor, Nat.testBit_and]
  cases pins.testBit p <;> cases mask.testBit p <;> cases value.testBit p <;> rfl

/-- After a tick of the six-bottle variant, each of the six output pins carries
the bit of the touched mask that has the pin's own number. -/
theorem bnc6_pin_follows_own_bit (s : bnc6.state) (sample k : Nat)
    (hs : sample < 65536) (hk : k < 6) :
    (bnc6.timer_callback s sample).pins.testBit (bnc6.OUT_PIN k) =
      sample.testBit (bnc6.OUT_PIN k) := by
  have hmask : bnc6.gpio_mask.testBit (bnc6.OUT_PIN k) = true := by
    have hk' : k = 0 ∨ k = 1 ∨ k = 2 ∨ k = 3 ∨ k = 4 ∨ k = 5 := by omega
    rcases hk' with h | h | h | h | h | h <;> subst h <;> decide
  simp only [bnc6.timer_callback, gpio_put_masked_testBit, hmask, if_true,
    to_uint16_of_small sample hs]

/-- C18. After a tick of the six-bottle variant the output pin `OUT_PIN_k` does
not follow electrode `k`: with electrode 0 touched and no other (`is_touched =
0b000001`), the tick leaves all six output pins low, so `OUT_PIN_0` (GPIO 2) is
low although bit 0 of the touched mask is 1; and with electrode 2 touched and no
other, `OUT_PIN_0` goes high although electrode 0 is not touched. -/
theorem C18_electrode_zero_not_on_its_pin :
    (bnc6.timer_callback bnc6.init 1).is_touched.testBit 0 = true ∧
    (bnc6.timer_callback bnc6.init 1).pins = 0 ∧
    (bnc6.timer_callback bnc6.init 1).pins.testBit bnc6.OUT_PIN_0 = false ∧
    (bnc6.timer_callback bnc6.init 4).is_touched.testBit 0 = false ∧
    (bnc6.timer_callback bnc6.init 4).pins.testBit bnc6.OUT_PIN_0 = true := by
  decide

/-! ## The single-sensor USB variant over a sequence of ticks -/

theorem detect_onset_testBit (previous current i : Nat) (hc : current < 65536) :
    (detect_onset previous current).testBit i =
      (current.testBit i && !previous.testBit i) := by
  rw [detect_onset_eq previous current hc]
  simp only [Nat.testBit_and, Nat.testBit_xor]
  cases previous.testBit i <;> cases current.testBit i <;> rfl

theorem detect_onset_self (current : Nat) : detect_onset current current = 0 := by
  simp [detect_onset, to_uint16]

/-- The stored previous sample after a run of ticks is the last sample read, or
the initial `was_touched` when there was no tick. -/
theorem usb12_run_was_touched (ticks : List (Nat × Nat)) (s : usb12.state)
    (h : ∀ p ∈ ticks, p.1 < 65536) :
    (usb12.run s ticks).was_touched = ((ticks.getLast?).map Prod.fst).getD s.was_touched := by
  induction ticks generalizing s with
  | nil => rfl
  | cons p rest ih =>
    have hrest : ∀ q ∈ rest, q.1 < 65536 := fun q hq => h q (List.mem_cons_of_mem _ hq)
    have hp : p.1 < 65536 := h p (List.mem_cons_self _ _)
    have hw : (usb12.timer_callback s p.1 p.2).was_touched = p.1 := by
      simp only [usb12.timer_callback, to_uint16_of_small p.1 hp]
      split <;> rfl
    simp only [usb12.run]
    rw [ih _ hrest, hw]
    cases rest with
    | nil => rfl
    | cons q rest2 =>
      have hx : (q :: rest2).getLast? = some ((q :: rest2).getLast (by simp)) :=
        List.getLast?_eq_getLast _ _
      rw [List.getLast?_cons_cons, hx]
      rfl

/-- C19. Feed any sequence of 16-bit samples to the tick handler of the
single-sensor USB variant, starting from the initial globals, and then one more
sample `current`; let `previous` be the last sample of the sequence, or 0 when
it is empty.  The onset mask of the new tick has bit `i` set iff bit `i` of
`current` is 1 and bit `i` of `previous` is 0; a line is printed on the tick iff
the mask is nonzero, and the line carries the counter, the timestamp and the
mask; and when `current = previous` the mask is 0 and nothing is printed. -/
theorem C19_onset_per_tick (ticks : List (Nat × Nat)) (current timestamp : Nat)
    (hticks : ∀ p ∈ ticks, p.1 < 65536) (hcur : current < 65536) :
    (∀ i : Nat,
      (usb12.timer_callback (usb12.run usb12.init ticks) current timestamp).is_onset.testBit i =
        (current.testBit i && !(((ticks.getLast?).map Prod.fst).getD 0).testBit i)) ∧
    (usb12.timer_callback (usb12.run usb12.init ticks) current timestamp).printed =
      (usb12.run usb12.init ticks).printed ++
        (if (usb12.timer_callback (usb12.run usb12.init ticks) current timestamp).is_onset ≠ 0
         then [((usb12.run usb12.init ticks).n, timestamp,
                (usb12.timer_callback (usb12.run usb12.init ticks) current timestamp).is_onset)]
         else []) ∧
    (current = ((ticks.getLast?).map Prod.fst).getD 0 →
      (usb12.timer_callback (usb12.run usb12.init ticks) current timestamp).is_onset = 0 ∧
      (usb12.timer_callback (usb12.run usb12.init ticks) current timestamp).printed =
        (usb12.run usb12.init ticks).printed) ∧
    (usb12.timer_callback (usb12.run usb12.init ticks) current timestamp).was_touched =
      current := by
  have hw := usb12_run_was_touched ticks usb12.init hticks
  have hw0 : (usb12.run usb12.init ticks).was_touched =
      ((ticks.getLast?).map Prod.fst).getD 0 := hw
  have honset : (usb12.timer_callback (usb12.run usb12.init ticks) current timestamp).is_onset
      = detect_onset (((ticks.getLast?).map Prod.fst).getD 0) current := by
    simp only [usb12.timer_callback, to_uint16_of_small current hcur, hw0]
    split <;> rfl
  have hprinted : (usb12.timer_callback (usb12.run usb12.init ticks) current timestamp).printed
      = (usb12.run usb12.init ticks).printed ++
        (if detect_onset (((ticks.getLast?).map Prod.fst).getD 0) current ≠ 0
         then [((usb12.run usb12.init ticks).n, timestamp,
                detect_onset (((ticks.getLast?).map Prod.fst).getD 0) current)]
         else []) := by
    simp only [usb12.timer_callback, to_uint16_of_small current hcur, hw0]
    split <;> simp_all
  refine ⟨?_, ?_, ?_, ?_⟩
  · intro i
    rw [honset]
    exact detect_onset_testBit _ current i hcur
  · rw [honset]
    exact hprinted
  · intro heq
    have hz : detect_onset (((ticks.getLast?).map Prod.fst).getD 0) current = 0 := by
      rw [← heq]; exact detect_onset_self current
    refine ⟨by rw [honset]; exact hz, ?_⟩
    rw [hprinted, hz]
    simp
  · simp only [usb12.timer_callback, to_uint16_of_small current hcur]
    split <;> rfl

/-- Witness for C19: electrode 0 touched on two consecutive ticks gives no onset
and no line on the second. -/
theorem C19_onset_per_tick_witness :
    (usb12.timer_callback (usb12.run usb12.init [(1, 100)]) 1 120).is_onset = 0 ∧
    (usb12.timer_callback (usb12.run usb12.init [(1, 100)]) 1 120).printed =
      (usb12.run usb12.init [(1, 100)]).printed :=
  (C19_onset_per_tick [(1, 100)] 1 120 (by decide) (by decide)).2.2.1 rfl

/-! ## The debounce register -/

theorem testBit_57344 (i : Nat) :
    Nat.testBit 57344 i = (decide (13 ≤ i) && decide (i < 16)) := by
  by_cases hi : i < 16
  · have hcases : i = 0 ∨ i = 1 ∨ i = 2 ∨ i = 3 ∨ i = 4 ∨ i = 5 ∨ i = 6 ∨ i = 7 ∨ i = 8 ∨
        i = 9 ∨ i = 10 ∨ i = 11 ∨ i = 12 ∨ i = 13 ∨ i = 14 ∨ i = 15 := by omega
    rcases hcases with h | h | h | h | h | h | h | h | h | h | h | h | h | h | h | h <;>
      subst h <;> decide
  · have hlt : 57344 < 2 ^ i :=
      Nat.lt_of_lt_of_le (by decide : 57344 < 2 ^ 16) (Nat.pow_le_pow_right (by decide) (by omega))
    rw [Nat.testBit_lt_two_pow hlt]
    simp [hi]

theorem testBit_pressed_bit (level : Bool) (i : Nat) :
    (if level = true then (0 : Nat) else 1).testBit i = (decide (i = 0) && !level) := by
  cases level
  · cases i with
    | zero => decide
    | succ n =>
      have hlt : 1 < 2 ^ (n + 1) := Nat.one_lt_two_pow (by omega)
      simp [Nat.testBit_lt_two_pow hlt]
  · simp

/-- The bits of the debounce register after a call: bit 0 is set iff the pin was
low, bits 1 to 12 are the previous bits 0 to 11, bits 13 to 15 are set. -/
theorem debounce_btn_testBit (state : Nat) (level : Bool) (i : Nat) :
    (debounce_btn state level).1.testBit i =
      if i = 0 then !level else if i < 13 then state.testBit (i - 1) else decide (i < 16) := by
  have h16 : (65536 : Nat) = 2 ^ 16 := by decide
  simp only [debounce_btn, to_uint16, h16, Nat.testBit_mod_two_pow, Nat.testBit_or,
    Nat.testBit_shiftLeft, testBit_57344, testBit_pressed_bit]
  by_cases h0 : i = 0
  · subst h0
    simp
  · by_cases h13 : i < 13
    · have h1 : i ≥ 1 := by omega
      have h16' : i < 16 := by omega
      have hn13 : ¬ 13 ≤ i := by omega
      simp [h0, h13, h1, h16', hn13]
    · by_cases h16' : i < 16
      · simp [h0, h13, h16', Nat.le_of_not_lt h13]
      · simp [h0, h13, h16']

theorem debounce_feed_snoc (state : Nat) (levels : List Bool) (level : Bool) :
    (debounce_feed state (levels ++ [level])).1 =
      (debounce_btn (debounce_feed state levels).1 level).1 := by
  induction levels generalizing state with
  | nil => rfl
  | cons l rest ih =>
    show (debounce_feed (debounce_btn state l).1 (rest ++ [level])).1 = _
    exact ih _

/-- The register equals the target `0xf000` iff bit 12 is set and bits 0 to 11
are clear (after a call, bits 13 to 15 are set and no higher bit is). -/
theorem debounce_btn_target (state : Nat) (level : Bool) :
    (debounce_btn state level).1 = 0xf000 ↔
      (debounce_btn state level).1.testBit 12 = true ∧
      ∀ i, i < 12 → (debounce_btn state level).1.testBit i = false := by
  constructor
  · intro h
    rw [h]
    refine ⟨by decide, ?_⟩
    intro i hi
    have hcases : i = 0 ∨ i = 1 ∨ i = 2 ∨ i = 3 ∨ i = 4 ∨ i = 5 ∨ i = 6 ∨ i = 7 ∨ i = 8 ∨
        i = 9 ∨ i = 10 ∨ i = 11 := by omega
    rcases hcases with h | h | h | h | h | h | h | h | h | h | h | h <;> subst h <;> decide
  · rintro ⟨h12, hlow⟩
    apply Nat.eq_of_testBit_eq
    intro i
    by_cases hi : i < 12
    · rw [hlow i hi]
      have hcases : i = 0 ∨ i = 1 ∨ i = 2 ∨ i = 3 ∨ i = 4 ∨ i = 5 ∨ i = 6 ∨ i = 7 ∨ i = 8 ∨
          i = 9 ∨ i = 10 ∨ i = 11 := by omega
      rcases hcases with h | h | h | h | h | h | h | h | h | h | h | h <;> subst h <;> decide
    · by_cases hi12 : i = 12
      · subst hi12
        rw [h12]
        decide
      · rw [debounce_btn_testBit]
        have h0 : i ≠ 0 := by omega
        have h13 : ¬ i < 13 := by omega
        simp only [h0, h13, if_false]
        by_cases hi16 : i < 16
        · have hcases : i = 13 ∨ i = 14 ∨ i = 15 := by omega
          rcases hcases with h | h | h <;> subst h <;> decide
        · have hlt : 0xf000 < 2 ^ i :=
            Nat.lt_of_lt_of_le (by decide : 0xf000 < 2 ^ 16)
              (Nat.pow_le_pow_right (by decide) (by omega))
          rw [Nat.testBit_lt_two_pow hlt]
          simp [hi16]

/-- A list is empty or ends with a last element. -/
theorem nil_or_snoc (levels : List Bool) :
    levels = [] ∨ ∃ ys l, levels = ys ++ [l] := by
  rcases List.eq_nil_or_concat levels with h | ⟨ys, l, h⟩
  · exact Or.inl h
  · exact Or.inr ⟨ys, l, by rw [h, List.concat_eq_append]⟩

/-- Bit `j` of the register is set and the bits below it are clear iff the
levels fed so far end with a low level followed by `j` high levels. -/
theorem debounce_feed_pattern (j : Nat) (hj : j ≤ 12) :
    ∀ levels : List Bool,
      ((debounce_feed 0 levels).1.testBit j = true ∧
        ∀ i, i < j → (debounce_feed 0 levels).1.testBit i = false) ↔
      ∃ older, levels = older ++ false :: List.replicate j true := by
  induction j with
  | zero =>
    intro levels
    rcases nil_or_snoc levels with rfl | ⟨ys, l, rfl⟩
    · constructor
      · rintro ⟨h, _⟩
        exact absurd h (by decide)
      · rintro ⟨older, h⟩
        exact absurd (congrArg List.length h) (by simp)
    · rw [debounce_feed_snoc, debounce_btn_testBit]
      constructor
      · rintro ⟨h, _⟩
        have hl : l = false := by simpa using h
        exact ⟨ys, by rw [hl]; rfl⟩
      · rintro ⟨older, h⟩
        have hl : l = false := by
          have h2 : ys ++ [l] = older ++ [false] := h
          have := (List.append_inj' h2 rfl).2
          simpa using this
        refine ⟨by simp [hl], ?_⟩
        intro i hi
        omega
  | succ j ih =>
    intro levels
    have ih' := ih (by omega)
    rcases nil_or_snoc levels with rfl | ⟨ys, l, rfl⟩
    · constructor
      · rintro ⟨h, _⟩
        exact absurd h (by simp [debounce_feed])
      · rintro ⟨older, h⟩
        exact absurd (congrArg List.length h) (by simp; omega)
    · have hrep : (false :: List.replicate (j + 1) true) =
          (false :: List.replicate j true) ++ [true] := by
        rw [List.replicate_succ']; rfl
      constructor
      · rintro ⟨htop, hlow⟩
        rw [debounce_feed_snoc, debounce_btn_testBit] at htop
        have hj13 : j + 1 < 13 := by omega
        simp only [Nat.succ_ne_zero, if_false, hj13, if_true, Nat.add_sub_cancel] at htop
        have hl : l = true := by
          have h0 := hlow 0 (by omega)
          rw [debounce_feed_snoc, debounce_btn_testBit] at h0
          simpa using h0
        have hlow' : ∀ i, i < j → (debounce_feed 0 ys).1.testBit i = false := by
          intro i hi
          have h1 := hlow (i + 1) (by omega)
          rw [debounce_feed_snoc, debounce_btn_testBit] at h1
          have hi13 : i + 1 < 13 := by omega
          simpa only [Nat.succ_ne_zero, if_false, hi13, if_true, Nat.add_sub_cancel] using h1
        obtain ⟨older, hys⟩ := (ih' ys).mp ⟨htop, hlow'⟩
        refine ⟨older, ?_⟩
        rw [hys, hl, hrep, List.append_assoc]
      · rintro ⟨older, h⟩
        rw [hrep, ← List.append_assoc] at h
        have hboth := List.append_inj' h rfl
        have hl : l = true := by simpa using hboth.2
        have hys : ys = older ++ false :: List.replicate j true := hboth.1
        obtain ⟨htop, hlow⟩ := (ih' ys).mpr ⟨older, hys⟩
        have hj13 : j + 1 < 13 := by omega
        refine ⟨?_, ?_⟩
        · rw [debounce_feed_snoc, debounce_btn_testBit]
          simp only [Nat.succ_ne_zero, if_false, hj13, if_true, Nat.add_sub_cancel]
          exact htop
        · intro i hi
          rw [debounce_feed_snoc, debounce_btn_testBit]
          cases i with
          | zero => simp [hl]
          | succ i' =>
            have hi13 : i' + 1 < 13 := by omega
            simp only [Nat.succ_ne_zero, if_false, hi13, if_true, Nat.add_sub_cancel]
            exact hlow i' (by omega)

/-- C17, as stated, fails.  Starting from the initial register, an idle (high)
level followed by 12 low (pressed) levels leaves the register at `0xefff`, and
none of the 13 calls returns `true`; a low level followed by 12 high levels
brings the register to the target `0xf000`, and the last call returns `true`. -/
theorem C17_counterexample :
    debounce_feed 0 (true :: List.replicate 12 false) =
      (0xefff, List.replicate 13 false) ∧
    debounce_feed 0 (false :: List.replicate 12 true) =
      (0xf000, List.replicate 12 false ++ [true]) := by
  decide

/-- C17, amended.  A call of `debounce_btn` returns `true` exactly when the
register it leaves equals the target `0xf000`; and, for every sequence of levels
fed to successive calls from the initial register, the last call returns `true`
exactly when the levels end with one low (pressed) level followed by 12
consecutive high (idle) levels. -/
theorem C17_debounce_target (state : Nat) (pre : List Bool) (level : Bool) :
    ((debounce_btn state level).2 = true ↔ (debounce_btn state level).1 = 0xf000) ∧
    ((debounce_btn (debounce_feed 0 pre).1 level).2 = true ↔
      ∃ older, pre ++ [level] = older ++ false :: List.replicate 12 true) := by
  have hres : ∀ s l, (debounce_btn s l).2 = true ↔ (debounce_btn s l).1 = 0xf000 := by
    intro s l
    simp [debounce_btn]
  refine ⟨hres state level, ?_⟩
  rw [hres, debounce_btn_target, ← debounce_feed_snoc]
  exact debounce_feed_pattern 12 (Nat.le_refl 12) (pre ++ [level])

/-! ## The poll loop on the shared register -/

theorem poll_loop_append (state : Nat) (xs ys : List pin_levels) :
    poll_loop state (xs ++ ys) =
      ((poll_loop (poll_loop state xs).1 ys).1,
       (poll_loop state xs).2 ++ (poll_loop (poll_loop state xs).1 ys).2) := by
  induction xs generalizing state with
  | nil => rfl
  | cons p rest ih =>
    show poll_loop state (p :: (rest ++ ys)) = _
    simp only [poll_loop, ih, List.cons_append]

/-- While every button is idle no press is reported, and the register is left
clear below bit 13 (or untouched when there is no iteration). -/
theorem poll_loop_idle (n state : Nat)
    (hs : state = 0 ∨ state = 0xe000 ∨ state = 0xf000) :
    ((poll_loop state (List.replicate n all_idle)).1 = state ∨
      (poll_loop state (List.replicate n all_idle)).1 = 0xe000) ∧
    (poll_loop state (List.replicate n all_idle)).2 = List.replicate n [] := by
  induction n generalizing state with
  | zero => exact ⟨Or.inl rfl, rfl⟩
  | succ n ih =>
    have hstep : poll_buttons state all_idle = (0xe000, []) := by
      rcases hs with h | h | h <;> subst h <;> decide
    have := ih 0xe000 (Or.inr (Or.inl rfl))
    simp only [List.replicate_succ, poll_loop, hstep]
    exact ⟨Or.inr (this.1.elim id id), by rw [this.2]⟩

/-- One more held iteration moves the register reached after `j` held iterations
to the one reached after `min (j + 1) 4`, and reports no press. -/
theorem poll_loop_hold_step (b : button) (j : Nat) (hj : j = 1 ∨ j = 2 ∨ j = 3 ∨ j = 4) :
    poll_loop (poll_loop 0 (List.replicate j (only_pressed b))).1 [only_pressed b] =
      ((poll_loop 0 (List.replicate (min (j + 1) 4) (only_pressed b))).1, [[]]) := by
  rcases hj with h | h | h | h <;> subst h <;> cases b <;> decide

/-- While one button is held and the others are idle no press is reported, and
the register after `k ≥ 1` iterations is the one after `min k 4` iterations from
the initial register. -/
theorem poll_loop_hold (b : button) (k state : Nat) (hs : state = 0 ∨ state = 0xe000) :
    poll_loop state (List.replicate (k + 1) (only_pressed b)) =
      ((poll_loop 0 (List.replicate (min (k + 1) 4) (only_pressed b))).1,
       List.replicate (k + 1) []) := by
  induction k with
  | zero =>
    rcases hs with h | h <;> subst h <;> cases b <;> decide
  | succ k ih =>
    have hmin : min (k + 1) 4 = 1 ∨ min (k + 1) 4 = 2 ∨ min (k + 1) 4 = 3 ∨
        min (k + 1) 4 = 4 := by omega
    have hmin2 : min (min (k + 1) 4 + 1) 4 = min (k + 1 + 1) 4 := by omega
    have hrep : List.replicate (k + 1 + 1) ([] : List button) =
        List.replicate (k + 1) [] ++ [[]] := List.replicate_succ' _ _
    rw [List.replicate_succ', poll_loop_append, ih, poll_loop_hold_step b _ hmin, hmin2, hrep]

/-- After the held button is released, the third idle iteration reports the
press, in the call for that button, and no other press is reported. -/
theorem poll_loop_release (b : button) (j : Nat) (hj : j = 1 ∨ j = 2 ∨ j = 3 ∨ j = 4) :
    ((poll_loop (poll_loop 0 (List.replicate j (only_pressed b))).1
        (List.replicate 3 all_idle)).1 = 0xe000 ∨
     (poll_loop (poll_loop 0 (List.replicate j (only_pressed b))).1
        (List.replicate 3 all_idle)).1 = 0xf000) ∧
    (poll_loop (poll_loop 0 (List.replicate j (only_pressed b))).1
        (List.replicate 3 all_idle)).2 = [[], [], [b]] := by
  rcases hj with h | h | h | h <;> subst h <;> cases b <;> decide

/-- C16. In the poll loop, where the four calls of `debounce_btn` of each
iteration share one register: if all buttons are idle for `p` iterations, then
one button is held for `k ≥ 1` iterations while the others stay idle, then all
are idle for `m ≥ 3` iterations, the only press reported is one press of that
button, in the third iteration after the release; no press is reported in any
iteration before it, in particular in none while the button is held. -/
theorem C16_single_press_reported_once (b : button) (p k m : Nat)
    (hk : 1 ≤ k) (hm : 3 ≤ m) :
    (poll_loop 0 (List.replicate p all_idle ++ List.replicate k (only_pressed b) ++
        List.replicate m all_idle)).2 =
      List.replicate (p + k + 2) [] ++ [b] :: List.replicate (m - 3) [] ∧
    (poll_loop 0 (List.replicate p all_idle ++ List.replicate k (only_pressed b) ++
        List.replicate m all_idle)).2.flatten = [b] := by
  obtain ⟨k', rfl⟩ : ∃ k', k = k' + 1 := ⟨k - 1, by omega⟩
  obtain ⟨m', rfl⟩ : ∃ m', m = 3 + m' := ⟨m - 3, by omega⟩
  have hidle := poll_loop_idle p 0 (Or.inl rfl)
  have hhold := poll_loop_hold b k' _ (hidle.1.elim Or.inl Or.inr)
  have hmin : min (k' + 1) 4 = 1 ∨ min (k' + 1) 4 = 2 ∨ min (k' + 1) 4 = 3 ∨
      min (k' + 1) 4 = 4 := by omega
  have hrel := poll_loop_release b _ hmin
  have hrest := poll_loop_idle m' _ (hrel.1.elim (fun h => Or.inr (Or.inl h))
    (fun h => Or.inr (Or.inr h)))
  have h3m : List.replicate (3 + m') all_idle =
      List.replicate 3 all_idle ++ List.replicate m' all_idle := List.replicate_add _ _ _
  have hreports : (poll_loop 0 (List.replicate p all_idle ++
      List.replicate (k' + 1) (only_pressed b) ++ List.replicate (3 + m') all_idle)).2 =
      List.replicate (p + (k' + 1) + 2) [] ++ [b] :: List.replicate (3 + m' - 3) [] := by
    rw [h3m, poll_loop_append, poll_loop_append, poll_loop_append]
    simp only [hidle.2, hhold, hrel.2, hrest.2]
    have h3 : 3 + m' - 3 = m' := by omega
    rw [h3]
    have hsplit : List.replicate (p + (k' + 1) + 2) ([] : List button) =
        List.replicate p [] ++ List.replicate (k' + 1) [] ++ [[], []] := by
      rw [List.replicate_add, List.replicate_add]
      rfl
    rw [hsplit]
    simp
  refine ⟨hreports, ?_⟩
  rw [hreports]
  simp

/-- Witness for C16: two idle iterations, the right button held for one
iteration, five idle iterations: the press is reported once, by the call for the
right button, in the sixth iteration. -/
theorem C16_single_press_reported_once_witness :
    (poll_loop 0 (List.replicate 2 all_idle ++
        List.replicate 1 (only_pressed button.BTN_RIGHT) ++
        List.replicate 5 all_idle)).2 =
      List.replicate 5 [] ++ [button.BTN_RIGHT] :: List.replicate 2 [] :=
  (C16_single_press_reported_once button.BTN_RIGHT 2 1 5 (by decide) (by decide)).1

/-! ## The spacing of reported presses -/

/-- A call on a register that is quiet for `q + 1` calls returns `false` and
leaves a register that is quiet for `q` calls. -/
theorem quiet_step (q state : Nat) (level : Bool) (hq : q ≤ 11)
    (h : quiet (q + 1) state) :
    (debounce_btn state level).2 = false ∧ quiet q (debounce_btn state level).1 := by
  constructor
  · cases hres : (debounce_btn state level).2 with
    | false => rfl
    | true =>
      have htarget : (debounce_btn state level).1 = 0xf000 := by
        simpa [debounce_btn] using hres
      have h12 := ((debounce_btn_target state level).mp htarget).1
      rw [debounce_btn_testBit] at h12
      simp only [show (12 : Nat) ≠ 0 by decide, if_false, show (12 : Nat) < 13 by decide,
        if_true] at h12
      have := h 11 (by omega) (by decide)
      rw [show (12 : Nat) - 1 = 11 by decide, this] at h12
      exact absurd h12 (by decide)
  · intro j hj hj12
    rw [debounce_btn_testBit]
    have h0 : j ≠ 0 := by omega
    have h13 : j < 13 := by omega
    simp only [h0, if_false, h13, if_true]
    exact h (j - 1) (by omega) (by omega)

/-- A call that returns `true` leaves a register that is quiet for 12 calls. -/
theorem quiet_of_report (state : Nat) (level : Bool)
    (h : (debounce_btn state level).2 = true) : quiet 12 (debounce_btn state level).1 := by
  have htarget : (debounce_btn state level).1 = 0xf000 := by
    simpa [debounce_btn] using h
  intro j _ hj12
  exact ((debounce_btn_target state level).mp htarget).2 j hj12

/-! ## One poll iteration as steps of the model -/

/-- The steps of one poll iteration, call by call. -/
theorem poll_steps (state : Nat) (p : pin_levels) :
    (poll_buttons state p).1 =
      (debounce_btn (debounce_btn (debounce_btn (debounce_btn state p.btn_down).1
        p.btn_up).1 p.btn_right).1 p.btn_left).1 ∧
    (poll_buttons state p).2.map button.to_step =
      (if (debounce_btn state p.btn_down).2 then [step.btn_down] else []) ++
      ((if (debounce_btn (debounce_btn state p.btn_down).1 p.btn_up).2
          then [step.btn_up] else []) ++
       ((if (debounce_btn (debounce_btn (debounce_btn state p.btn_down).1
            p.btn_up).1 p.btn_right).2 then [step.btn_right] else []) ++
        (if (debounce_btn (debounce_btn (debounce_btn (debounce_btn state p.btn_down).1
            p.btn_up).1 p.btn_right).1 p.btn_left).2 then [step.btn_left] else []))) := by
  refine ⟨rfl, ?_⟩
  simp only [poll_buttons]
  cases (debounce_btn state p.btn_down).2 <;>
    cases (debounce_btn (debounce_btn state p.btn_down).1 p.btn_up).2 <;>
    cases (debounce_btn (debounce_btn (debounce_btn state p.btn_down).1
      p.btn_up).1 p.btn_right).2 <;>
    cases (debounce_btn (debounce_btn (debounce_btn (debounce_btn state p.btn_down).1
      p.btn_up).1 p.btn_right).1 p.btn_left).2 <;>
    rfl

/-- One poll iteration reports at most one press, so a tick that falls inside an
iteration acts as a tick before it or after it. -/
theorem poll_reports_at_most_one (state : Nat) (p : pin_levels) :
    (poll_buttons state p).2.length ≤ 1 := by
  have hlen : (poll_buttons state p).2.length =
      ((poll_buttons state p).2.map button.to_step).length := by simp
  rw [hlen, (poll_steps state p).2]
  cases hd : (debounce_btn state p.btn_down).2 with
  | true =>
    have q12 := quiet_of_report _ _ hd
    have su := quiet_step 11 _ p.btn_up (by decide) q12
    have sr := quiet_step 10 _ p.btn_right (by decide) su.2
    have sl := quiet_step 9 _ p.btn_left (by decide) sr.2
    simp [su.1, sr.1, sl.1]
  | false =>
    cases hu : (debounce_btn (debounce_btn state p.btn_down).1 p.btn_up).2 with
    | true =>
      have q12 := quiet_of_report _ _ hu
      have sr := quiet_step 11 _ p.btn_right (by decide) q12
      have sl := quiet_step 10 _ p.btn_left (by decide) sr.2
      simp [sr.1, sl.1]
    | false =>
      cases hr : (debounce_btn (debounce_btn (debounce_btn state p.btn_down).1
          p.btn_up).1 p.btn_right).2 with
      | true =>
        have q12 := quiet_of_report _ _ hr
        have sl := quiet_step 11 _ p.btn_left (by decide) q12
        simp [sl.1]
      | false =>
        cases (debounce_btn (debounce_btn (debounce_btn (debounce_btn state p.btn_down).1
          p.btn_up).1 p.btn_right).1 p.btn_left).2 <;> simp

/-- Every initial part of a well-timed sequence of events is well-timed, so the
protocol theorem covers every apply of a run, not only the last. -/
theorem well_timed_prefix (xs ys : List event) (since : Nat)
    (h : well_timed_from since (xs ++ ys) = true) : well_timed_from since xs = true := by
  induction xs generalizing since with
  | nil => rfl
  | cons ev rest ih =>
    cases ev with
    | poll p =>
      simp only [List.cons_append, well_timed_from, Bool.and_eq_true] at h ⊢
      exact ⟨h.1, ih _ h.2⟩
    | tick inp =>
      simp only [List.cons_append, well_timed_from] at h ⊢
      cases hlock : inp.lock_free <;> simp only [hlock] at h ⊢ <;> exact ih _ h

/-- The timing condition is needed: the bare step list `right, down, down, tick`,
which no well-timed sequence of events produces, edits the touch threshold
(entry 0, 15 to 17), moves the cursor to entry 2 and then applies with the
cursor there, so that the sensor keeps the threshold 15 while the table holds
17. -/
theorem untimed_steps_can_skip_an_edit :
    (boot [step.btn_right, step.btn_down, step.btn_down]).map
        (fun h => (h.edited, h.now.needs_update, h.now.curr_setting,
          is_apply h.now (step.tick
            { is_touched := false, baseline := 0, filtered := 0, lock_free := true })))
      = some ([0], true, 2, true) ∧
    (boot [step.btn_right, step.btn_down, step.btn_down,
        step.tick { is_touched := false, baseline := 0, filtered := 0, lock_free := true }]).map
        (fun h => (h.now.needs_update, h.now.settings.map setting.value,
          h.now.settings.map setting.key, h.now.sensor.value_of SETTING_TTH))
      = some (false, [17, 10, 1, 1, 3, 1, 1],
          [SETTING_TTH, SETTING_RTH, SETTING_NHDR, SETTING_NHDF, SETTING_NHDT,
            SETTING_MHDR, SETTING_MHDF], some 15) := by
  decide

end LickSensor
